import Mathlib

/-!
Shallow embedding of `app/src/main/cpp/utils/ElfView.cpp` (an ELF inspection
library).  The attached byte range is a `List Nat` of byte values; C++ pointers
into the range are modelled as byte offsets (`Option Nat`, `none` = `nullptr`).
Reads that would go outside the attached range, dereference a null pointer, or
divide by zero (all undefined behaviour in the C++ source) are modelled by
`Option`-valued functions returning `none`; unbounded hash-chain walks carry a
fuel argument whose exhaustion is likewise mapped to `none` (in the source such
a walk either faults or spins forever).  Machine integers are `Nat` with
explicit reductions `% 2^32` / `% 2^64` where the C++ arithmetic wraps.
-/

namespace ElfView

/-- Read one byte of the attached range; `none` models an out-of-range read. -/
def readU8 (f : List Nat) (p : Nat) : Option Nat := f.get? p

/-- Little-endian 16-bit read. -/
def readU16 (f : List Nat) (p : Nat) : Option Nat := do
  let b0 ← f.get? p
  let b1 ← f.get? (p + 1)
  pure (b0 + 256 * b1)

/-- Little-endian 32-bit read. -/
def readU32 (f : List Nat) (p : Nat) : Option Nat := do
  let b0 ← f.get? p
  let b1 ← f.get? (p + 1)
  let b2 ← f.get? (p + 2)
  let b3 ← f.get? (p + 3)
  pure (b0 + 256 * b1 + 65536 * b2 + 16777216 * b3)

/-- Little-endian 64-bit read. -/
def readU64 (f : List Nat) (p : Nat) : Option Nat := do
  let lo ← readU32 f p
  let hi ← readU32 f (p + 4)
  pure (lo + 4294967296 * hi)

/-- Word-sized read: 32-bit on Elf32 images, 64-bit on Elf64 images. -/
def readUW (is32 : Bool) (f : List Nat) (p : Nat) : Option Nat :=
  if is32 then readU32 f p else readU64 f p

/-- Read the NUL-terminated C string starting at offset `p`; `none` models a
string that runs past the end of the attached range. -/
def readCStrAux (f : List Nat) : Nat → Nat → Option (List Nat)
  | _, 0 => none
  | p, fuel + 1 =>
    match f.get? p with
    | none => none
    | some 0 => some []
    | some (c + 1) => (readCStrAux f (p + 1) fuel).map (fun t => (c + 1) :: t)

def readCStr (f : List Nat) (p : Nat) : Option (List Nat) :=
  readCStrAux f p (f.length + 1 - p)

/-- Model of `strncmp(file + p, s.data(), s.length) == 0`: byte-wise compare
that stops early at a mismatch or when both sides reach NUL. -/
def strncmpEqZ (f : List Nat) (p : Nat) (s : List Nat) : Option Bool :=
  match s with
  | [] => some true
  | c :: rest =>
    match f.get? p with
    | none => none
    | some a =>
      if a = c then
        if a = 0 then some true else strncmpEqZ f (p + 1) rest
      else some false

/-- Byte strings for ASCII literals used by the section walker and tests. -/
def strBytes (s : String) : List Nat := s.data.map Char.toNat

/-- Boolean byte-list prefix test (`std::string::starts_with`). -/
def listIsPfx : List Nat → List Nat → Bool
  | [], _ => true
  | _ :: _, [] => false
  | a :: as, b :: bs => a = b && listIsPfx as bs

/-- Unsigned 64-bit subtraction `a - b` as the C++ `uint64_t` arithmetic does it. -/
def sub64 (a b : Nat) : Nat := (a % 2 ^ 64 + (2 ^ 64 - b % 2 ^ 64)) % 2 ^ 64

/-- SysV ELF hash (`elf_sysv_hash` in the source), 32-bit unsigned arithmetic. -/
def elfSysvHash (name : List Nat) : Nat :=
  name.foldl
    (fun h c =>
      let h1 := (h * 16 + c) % 2 ^ 32
      let g := h1 &&& 0xf0000000
      let h2 := h1 ^^^ g
      h2 ^^^ (g >>> 24))
    0

/-- GNU ELF hash (`elf_gnu_hash` in the source), 32-bit unsigned arithmetic. -/
def elfGnuHash (name : List Nat) : Nat :=
  name.foldl (fun h c => (h + h * 32 + c) % 2 ^ 32) 5381

/-- A dynamic or debug symbol record; only the fields the source reads
(`st_name`, `st_value`) are materialised. -/
structure ElfSymR where
  st_name : Nat
  st_value : Nat
deriving DecidableEq, Repr

/-- A relocation record; only `r_offset` and `r_info` are read by the source. -/
structure ElfRelR where
  r_offset : Nat
  r_info : Nat
deriving DecidableEq, Repr

/-- Read an `Elf32_Sym` / `Elf64_Sym` record (the two fields the source uses)
at byte offset `p`: `st_name` is a 32-bit word at `+0`; `st_value` is at `+4`
(32-bit) or `+8` (64-bit). -/
def readSym (is32 : Bool) (f : List Nat) (p : Nat) : Option ElfSymR := do
  let n ← readU32 f p
  let v ← if is32 then readU32 f (p + 4) else readU64 f (p + 8)
  pure ⟨n, v⟩

/-- Read an `Elf_Rel`/`Elf_Rela` record at byte offset `p`: `r_offset` at `+0`
and `r_info` at `+4` (32-bit) or `+8` (64-bit); `r_addend` is never read. -/
def readRel (is32 : Bool) (f : List Nat) (p : Nat) : Option ElfRelR := do
  let o ← readUW is32 f p
  let i ← readUW is32 f (p + (if is32 then 4 else 8))
  pure ⟨o, i⟩

/-- Stride of a relocation record: `sizeof(Elf32_Rel)=8`, `sizeof(Elf32_Rela)=12`,
`sizeof(Elf64_Rel)=16`, `sizeof(Elf64_Rela)=24`. -/
def relStride (is32 rela : Bool) : Nat :=
  if is32 then (if rela then 12 else 8) else (if rela then 24 else 16)

/-- `sizeof(Elf32_Sym) = 16`, `sizeof(Elf64_Sym) = 24`. -/
def symStride (is32 : Bool) : Nat := if is32 then 16 else 24

/-- `sizeof(Elf32_Rel) = 8`, `sizeof(Elf64_Rel) = 16`. -/
def relSize (is32 : Bool) : Nat := if is32 then 8 else 16

/-- `sizeof(Elf32_Rela) = 12`, `sizeof(Elf64_Rela) = 24`. -/
def relaSize (is32 : Bool) : Nat := if is32 then 12 else 24

/-- `ELF32_R_SYM(i) = i >> 8`; `ELF64_R_SYM(i) = i >> 32`. -/
def relRSym (is32 : Bool) (i : Nat) : Nat := if is32 then i / 256 else i / 2 ^ 32

/-- `ELF32_R_TYPE(i) = i & 0xff`; `ELF64_R_TYPE(i) = i & 0xffffffff`. -/
def relRType (is32 : Bool) (i : Nat) : Nat := if is32 then i % 256 else i % 2 ^ 32

/-- Jump-slot relocation types accepted by the GOT scanner:
`R_ARM_JUMP_SLOT=22` / `R_386_JMP_SLOT=7` on Elf32,
`R_AARCH64_JUMP_SLOT=1026` / `R_X86_64_JUMP_SLOT=7` on Elf64. -/
def isJumpSlotType (is32 : Bool) (t : Nat) : Bool :=
  if is32 then t = 22 || t = 7 else t = 1026 || t = 7

/-- Absolute-data relocation types accepted by the GOT scanner:
`R_ARM_ABS32=2`, `R_ARM_GLOB_DAT=21`, `R_386_32=1`, `R_386_GLOB_DAT=6` on
Elf32; `R_AARCH64_ABS64=257`, `R_AARCH64_GLOB_DAT=1025`, `R_X86_64_64=1`,
`R_X86_64_GLOB_DAT=6` on Elf64. -/
def isDataRelType (is32 : Bool) (t : Nat) : Bool :=
  if is32 then t = 2 || t = 21 || t = 1 || t = 6
  else t = 257 || t = 1025 || t = 1 || t = 6

/-- The parsed descriptor `ElfView::ElfInfo`.  `elfKind` models the `elfClass`
field and stores the raw class byte copied from `e_ident[4]` (`kNone=0`,
`kElf32=1`, `kElf64=2`; the C++ `static_cast` keeps any other byte value as
is).  Pointer fields hold byte offsets into the attached range, `none` being
`nullptr`; `soname` and the debug-symbol map own their bytes. -/
structure ElfInfo where
  elfKind : Nat := 0
  machine : Nat := 0
  soname : List Nat := []
  loadBias : Nat := 0
  loadedSize : Nat := 0
  sysv_hash : Option Nat := none
  sysv_hash_nbucket : Nat := 0
  sysv_hash_nchain : Nat := 0
  sysv_hash_bucket : Option Nat := none
  sysv_hash_chain : Option Nat := none
  gnu_hash : Option Nat := none
  symtab : Option Nat := none
  symtab_size : Nat := 0
  strtab : Option Nat := none
  dynsym : Option Nat := none
  dynsym_size : Nat := 0
  dynstr : Option Nat := none
  use_rela : Bool := false
  reldyn : Option Nat := none
  reldyn_size : Nat := 0
  reladyn : Option Nat := none
  reladyn_size : Nat := 0
  relplt : Option Nat := none
  relplt_size : Nat := 0
  miniDebugInfo : Option (Nat × Nat) := none
  compressedDebugSymbols : List (List Nat × Nat) := []
deriving DecidableEq, Repr

/-- The `ElfView` object: attached memory span, owned descriptor
(`none` after `Detach`, when the `unique_ptr` is null), and the loaded flag. -/
structure ViewState where
  mMemory : List Nat := []
  mElfInfo : Option ElfInfo := some {}
  mIsLoaded : Bool := false
deriving DecidableEq, Repr

/-- Association-list lookup modelling `unordered_map::find` on the
debug-symbol map (keys are byte strings). -/
def listLookup : List (List Nat × Nat) → List Nat → Option Nat
  | [], _ => none
  | (a, b) :: t, k => if a = k then some b else listLookup t k

/-- First map entry whose key starts with the given byte prefix, in the
model's (insertion) iteration order. -/
def findFirstWithPfx : List (List Nat × Nat) → List Nat → Option (List Nat × Nat)
  | [], _ => none
  | (a, b) :: t, p => if listIsPfx p a then some (a, b) else findFirstWithPfx t p

/-- `unordered_map::emplace`: insert only when the key is absent. -/
def emplaceSym (m : List (List Nat × Nat)) (k : List Nat) (v : Nat) :
    List (List Nat × Nat) :=
  if (listLookup m k).isSome then m else m ++ [(k, v)]

/-- Result of `GetDynamicSymbolIndexImpl`: `fault` models undefined behaviour
(out-of-range read, null dereference, modulo by zero, or a hash chain that
never terminates), `miss` is the C++ `return false`, `found` carries the
dynsym index and the symbol record. -/
inductive DynRes where
  | fault
  | miss
  | found (idx : Nat) (sym : ElfSymR)
deriving DecidableEq, Repr

/-- Internal result of the GNU-hash probe.  A `hardMiss` is a `return false`
inside the GNU block (bloom-filter miss, empty bucket); a `softMiss` is the
`break` at the end of a chain, after which the source falls through to the
SysV probe and the linear scan. -/
inductive GnuRes where
  | fault
  | hardMiss
  | softMiss
  | found (idx : Nat) (sym : ElfSymR)
deriving DecidableEq, Repr

/-- Internal result of the SysV-hash probe. -/
inductive SysvRes where
  | fault
  | miss
  | found (idx : Nat) (sym : ElfSymR)
deriving DecidableEq, Repr

/-- Chain walk of the GNU-hash lookup (the `while (true)` loop).  Each step
reads `dynsym[symix].st_name`, then `chain[symix - symoffset]`; on a hash
match it compares the name, and the walk ends when the chain entry has its low
bit set.  `fuel` bounds the walk; in the source a walk this long has already
read past the attached range. -/
def gnuChainWalk (is32 : Bool) (f : List Nat) (dsOff dstrOff chainOff symoffset h : Nat)
    (symbol : List Nat) : Nat → Nat → GnuRes
  | _, 0 => GnuRes.fault
  | symix, fuel + 1 =>
    match readSym is32 f (dsOff + symix * symStride is32) with
    | none => GnuRes.fault
    | some sym =>
      match readU32 f (chainOff + (symix - symoffset) * 4) with
      | none => GnuRes.fault
      | some ch =>
        if (h ||| 1) = (ch ||| 1) then
          match readCStr f (dstrOff + sym.st_name) with
          | none => GnuRes.fault
          | some nm =>
            if nm = symbol then GnuRes.found symix sym
            else if ch &&& 1 = 1 then GnuRes.softMiss
            else gnuChainWalk is32 f dsOff dstrOff chainOff symoffset h symbol (symix + 1) fuel
        else if ch &&& 1 = 1 then GnuRes.softMiss
        else gnuChainWalk is32 f dsOff dstrOff chainOff symoffset h symbol (symix + 1) fuel

/-- GNU-hash lookup over the section at byte offset `ghOff`: header words
`nbuckets`, `symoffset`, `bloom_size`, `bloom_shift`, then `bloom_size`
class-sized bloom words, then `nbuckets` 32-bit buckets, then the chain. -/
def gnuLookup (is32 : Bool) (f : List Nat) (ghOff dsOff dstrOff : Nat)
    (symbol : List Nat) : GnuRes :=
  match readU32 f ghOff, readU32 f (ghOff + 4), readU32 f (ghOff + 8),
      readU32 f (ghOff + 12) with
  | some nbuckets, some symoffset, some bloomSize, some bloomShift =>
    let bits : Nat := if is32 then 32 else 64
    let wsz : Nat := if is32 then 4 else 8
    let h := elfGnuHash symbol
    if bloomSize = 0 then GnuRes.fault
    else
      match readUW is32 f (ghOff + 16 + ((h / bits) % bloomSize) * wsz) with
      | none => GnuRes.fault
      | some word =>
        let mask := (1 <<< (h % bits)) ||| (1 <<< ((h >>> bloomShift) % bits))
        if word &&& mask ≠ mask then GnuRes.hardMiss
        else
          let bucketsOff := ghOff + 16 + bloomSize * wsz
          if nbuckets = 0 then GnuRes.fault
          else
            match readU32 f (bucketsOff + (h % nbuckets) * 4) with
            | none => GnuRes.fault
            | some symix =>
              if symix < symoffset then GnuRes.hardMiss
              else
                gnuChainWalk is32 f dsOff dstrOff (bucketsOff + nbuckets * 4)
                  symoffset h symbol symix (f.length + 1)
  | _, _, _, _ => GnuRes.fault

/-- The SysV `do { index = chain[index]; ... } while (index != 0)` loop.  The
body always runs at least once; `fuel` cuts cyclic chains, which in the source
spin forever. -/
def sysvChainWalk (is32 : Bool) (f : List Nat) (dsOff dstrOff chainOff : Nat)
    (symbol : List Nat) : Nat → Nat → SysvRes
  | _, 0 => SysvRes.fault
  | index, fuel + 1 =>
    match readU32 f (chainOff + index * 4) with
    | none => SysvRes.fault
    | some idx =>
      match readSym is32 f (dsOff + idx * symStride is32) with
      | none => SysvRes.fault
      | some sym =>
        match readCStr f (dstrOff + sym.st_name) with
        | none => SysvRes.fault
        | some nm =>
          if nm = symbol then SysvRes.found idx sym
          else if idx = 0 then SysvRes.miss
          else sysvChainWalk is32 f dsOff dstrOff chainOff symbol idx fuel

/-- SysV-hash lookup: probe `bucket[hash % nbucket]`, then follow the chain
until a match or index 0.  A null bucket/chain pointer with the probe running
is a fault, as in the source. -/
def sysvLookup (is32 : Bool) (f : List Nat) (info : ElfInfo) (dsOff dstrOff : Nat)
    (symbol : List Nat) : SysvRes :=
  match info.sysv_hash_bucket, info.sysv_hash_chain with
  | some bOff, some cOff =>
    let h := elfSysvHash symbol
    if info.sysv_hash_nbucket = 0 then SysvRes.fault
    else
      match readU32 f (bOff + (h % info.sysv_hash_nbucket) * 4) with
      | none => SysvRes.fault
      | some index =>
        match readSym is32 f (dsOff + index * symStride is32) with
        | none => SysvRes.fault
        | some sym =>
          match readCStr f (dstrOff + sym.st_name) with
          | none => SysvRes.fault
          | some nm =>
            if nm = symbol then SysvRes.found index sym
            else sysvChainWalk is32 f dsOff dstrOff cOff symbol index (f.length + 1)
  | _, _ => SysvRes.fault

/-- The fallback linear scan over `dynsym` (`i` is the next index, the second
argument counts the remaining iterations up to `dynsym_size`).  An entry
matches when `strncmp(symname, symbol.data(), symbol.size()) == 0` and
`symname[symbol.size()] == 0`. -/
def linearScanAux (is32 : Bool) (f : List Nat) (dsOff dstrOff : Nat)
    (symbol : List Nat) : Nat → Nat → DynRes
  | _, 0 => DynRes.miss
  | i, k + 1 =>
    match readSym is32 f (dsOff + i * symStride is32) with
    | none => DynRes.fault
    | some sym =>
      match strncmpEqZ f (dstrOff + sym.st_name) symbol with
      | none => DynRes.fault
      | some false => linearScanAux is32 f dsOff dstrOff symbol (i + 1) k
      | some true =>
        match readU8 f (dstrOff + sym.st_name + symbol.length) with
        | none => DynRes.fault
        | some 0 => DynRes.found i sym
        | some _ => linearScanAux is32 f dsOff dstrOff symbol (i + 1) k

/-- `GetDynamicSymbolIndexImpl`: GNU-hash probe (skipped when
`searchForUndefined`), then SysV probe, then the linear scan.  A GNU
`hardMiss` (`return false` in the source) skips the remaining probes. -/
def getDynamicSymbolIndexImpl (is32 : Bool) (f : List Nat) (info : ElfInfo)
    (symbol : List Nat) (searchForUndefined : Bool) : DynRes :=
  if info.elfKind = 0 ∨ f = [] then DynRes.miss
  else
    match info.dynsym, info.dynstr with
    | some dsOff, some dstrOff =>
      if searchForUndefined then
        linearScanAux is32 f dsOff dstrOff symbol 0 info.dynsym_size
      else
        match (match info.gnu_hash with
               | some gh => gnuLookup is32 f gh dsOff dstrOff symbol
               | none => GnuRes.softMiss) with
        | GnuRes.fault => DynRes.fault
        | GnuRes.found i s => DynRes.found i s
        | GnuRes.hardMiss => DynRes.miss
        | GnuRes.softMiss =>
          match (match info.sysv_hash with
                 | some _ => sysvLookup is32 f info dsOff dstrOff symbol
                 | none => SysvRes.miss) with
          | SysvRes.fault => DynRes.fault
          | SysvRes.found i s => DynRes.found i s
          | SysvRes.miss => linearScanAux is32 f dsOff dstrOff symbol 0 info.dynsym_size
    | _, _ => DynRes.miss

/-- Scan loop of `GetNonDynamicSymbolImpl` over `.symtab`: exact name match
via the C-string at `strtab + st_name`.  `some none` is the C++ `nullptr`
return; the outer `none` is a fault. -/
def nonDynScanAux (is32 : Bool) (f : List Nat) (stOff strOff : Nat)
    (symbol : List Nat) : Nat → Nat → Option (Option ElfSymR)
  | _, 0 => some none
  | i, k + 1 =>
    match readSym is32 f (stOff + i * symStride is32) with
    | none => none
    | some sym =>
      match readCStr f (strOff + sym.st_name) with
      | none => none
      | some nm =>
        if nm = symbol then some (some sym)
        else nonDynScanAux is32 f stOff strOff symbol (i + 1) k

/-- `GetNonDynamicSymbolImpl`: guarded linear scan of `.symtab`. -/
def getNonDynamicSymbolImpl (is32 : Bool) (f : List Nat) (info : ElfInfo)
    (symbol : List Nat) : Option (Option ElfSymR) :=
  if info.elfKind = 0 ∨ f = [] then some none
  else
    match info.symtab, info.strtab with
    | some stOff, some strOff =>
      nonDynScanAux is32 f stOff strOff symbol 0 info.symtab_size
    | _, _ => some none

/-- Prefix scan loop shared by the two halves of
`GetFirstSymbolOffsetWithPrefixImpl`: first entry whose name starts with the
given bytes (`strncmp(symname, prefix.data(), prefix.size()) == 0`). -/
def pfxScanAux (is32 : Bool) (f : List Nat) (tabOff strOff : Nat)
    (pfx : List Nat) : Nat → Nat → Option (Option ElfSymR)
  | _, 0 => some none
  | i, k + 1 =>
    match readSym is32 f (tabOff + i * symStride is32) with
    | none => none
    | some sym =>
      match strncmpEqZ f (strOff + sym.st_name) pfx with
      | none => none
      | some true => some (some sym)
      | some false => pfxScanAux is32 f tabOff strOff pfx (i + 1) k

/-- `GetFirstSymbolOffsetWithPrefixImpl`: scan `dynsym` first (when `dynsym`
and `dynstr` are both set), then `symtab` (when `symtab` and `strtab` are both
set); `some none` is the C++ `nullptr` return. -/
def getFirstSymbolWithPfxImpl (is32 : Bool) (f : List Nat) (info : ElfInfo)
    (pfx : List Nat) : Option (Option ElfSymR) :=
  match (match info.dynsym, info.dynstr with
         | some dsOff, some dstrOff =>
           pfxScanAux is32 f dsOff dstrOff pfx 0 info.dynsym_size
         | _, _ => some none) with
  | none => none
  | some (some s) => some (some s)
  | some none =>
    match info.symtab, info.strtab with
    | some stOff, some strOff =>
      pfxScanAux is32 f stOff strOff pfx 0 info.symtab_size
    | _, _ => some none

/-- `ElfView::IsValid`: non-empty memory, live descriptor, class not `kNone`. -/
def isValid (v : ViewState) : Bool :=
  match v.mElfInfo with
  | none => false
  | some info => !v.mMemory.isEmpty && info.elfKind ≠ 0

/-- A freshly constructed `ElfView` (the constructor allocates a default
descriptor). -/
def elfViewNew : ViewState := { mMemory := [], mElfInfo := some {}, mIsLoaded := false }

/-- `ElfView::Detach`: clears the span, releases the descriptor, resets the
loaded flag. -/
def detach (_ : ViewState) : ViewState :=
  { mMemory := [], mElfInfo := none, mIsLoaded := false }

/-- `ElfView::GetPointerSize`: 0 when invalid, else 4 for Elf32, 8 for Elf64,
0 for any other (raw) class value. -/
def getPointerSize (v : ViewState) : Nat :=
  if isValid v then
    match v.mElfInfo with
    | some info => if info.elfKind = 1 then 4 else if info.elfKind = 2 then 8 else 0
    | none => 0
  else 0

/-- `ElfView::GetArchitecture`: 0 when invalid, otherwise the stored machine. -/
def getArchitecture (v : ViewState) : Nat :=
  if isValid v then
    match v.mElfInfo with
    | some info => info.machine
    | none => 0
  else 0

/-- `ElfView::GetLoadBias` dereferences the descriptor unconditionally;
`none` models the null dereference after `Detach`. -/
def getLoadBias (v : ViewState) : Option Nat := v.mElfInfo.map (fun i => i.loadBias)

/-- `ElfView::GetLoadedSize`, same unconditional dereference. -/
def getLoadedSize (v : ViewState) : Option Nat := v.mElfInfo.map (fun i => i.loadedSize)

/-- `ElfView::GetSoname`, same unconditional dereference. -/
def getSoname (v : ViewState) : Option (List Nat) := v.mElfInfo.map (fun i => i.soname)

/-- Dynamic-lookup stage of `GetSymbolOffset` (lines dispatching on the class
and calling `GetDynamicSymbolIndexImpl` with `searchForUndefined=false`). -/
def dynStage (f : List Nat) (info : ElfInfo) (symbol : List Nat) : DynRes :=
  if info.elfKind = 1 then getDynamicSymbolIndexImpl true f info symbol false
  else if info.elfKind = 2 then getDynamicSymbolIndexImpl false f info symbol false
  else DynRes.miss

/-- Symtab stage of `GetSymbolOffset`: the caller-side guard
`symtab != nullptr && strtab != nullptr` followed by the class dispatch to
`GetNonDynamicSymbolImpl`. -/
def symtabStage (f : List Nat) (info : ElfInfo) (symbol : List Nat) :
    Option (Option ElfSymR) :=
  if info.symtab ≠ none ∧ info.strtab ≠ none then
    if info.elfKind = 1 then getNonDynamicSymbolImpl true f info symbol
    else if info.elfKind = 2 then getNonDynamicSymbolImpl false f info symbol
    else some none
  else some none

/-- `ElfView::GetSymbolOffset` with the return sites kept apart:
`some (some r)` is a value returned at a found-site (`st_value - loadBias`),
`some none` is a `return 0` (empty name, or all three tables missed), and
`none` is undefined behaviour (the descriptor is dereferenced before any
validity check, so a detached view faults here on a non-empty name). -/
def getSymbolOffsetR (v : ViewState) (symbol : List Nat) : Option (Option Nat) :=
  if symbol = [] then some none
  else
    match v.mElfInfo with
    | none => none
    | some info =>
      match dynStage v.mMemory info symbol with
      | DynRes.fault => none
      | DynRes.found _ s => some (some (sub64 s.st_value info.loadBias))
      | DynRes.miss =>
        match symtabStage v.mMemory info symbol with
        | none => none
        | some (some s) => some (some (sub64 s.st_value info.loadBias))
        | some none =>
          match listLookup info.compressedDebugSymbols symbol with
          | some val => some (some (sub64 val info.loadBias))
          | none => some none

/-- `ElfView::GetSymbolOffset` as the caller sees it: found-site values and
`return 0` collapse to the same `uint64_t`. -/
def getSymbolOffset (v : ViewState) (symbol : List Nat) : Option Nat :=
  (getSymbolOffsetR v symbol).map (fun o => o.getD 0)

/-- `ElfView::GetFirstSymbolOffsetWithPrefix` with return sites kept apart, as
in `getSymbolOffsetR`.  Empty prefix or invalid view short-circuit to the miss
sentinel before the descriptor is touched; otherwise the class dispatches to
the table scans and finally the debug-symbol map is walked. -/
def getFirstSymbolOffsetWithPfxR (v : ViewState) (pfx : List Nat) :
    Option (Option Nat) :=
  if pfx = [] ∨ isValid v = false then some none
  else
    match v.mElfInfo with
    | none => some none
    | some info =>
      match (if info.elfKind = 1 then getFirstSymbolWithPfxImpl true v.mMemory info pfx
             else if info.elfKind = 2 then getFirstSymbolWithPfxImpl false v.mMemory info pfx
             else some none) with
      | none => none
      | some (some s) => some (some (sub64 s.st_value info.loadBias))
      | some none =>
        match findFirstWithPfx info.compressedDebugSymbols pfx with
        | some e => some (some (sub64 e.2 info.loadBias))
        | none => some none

/-- `ElfView::GetFirstSymbolOffsetWithPrefix` as the caller sees it. -/
def getFirstSymbolOffsetWithPfx (v : ViewState) (pfx : List Nat) : Option Nat :=
  (getFirstSymbolOffsetWithPfxR v pfx).map (fun o => o.getD 0)

/-- The dynsym-index step of `GetSymbolGotOffset`: class dispatch to
`GetDynamicSymbolIndexImpl` with `searchForUndefined=true` (only the index is
kept).  `some none` is `std::nullopt`. -/
def dynIdxStage (f : List Nat) (info : ElfInfo) (symbol : List Nat) :
    Option (Option Nat) :=
  if info.elfKind = 1 then
    match getDynamicSymbolIndexImpl true f info symbol true with
    | DynRes.fault => none
    | DynRes.miss => some none
    | DynRes.found i _ => some (some i)
  else if info.elfKind = 2 then
    match getDynamicSymbolIndexImpl false f info symbol true with
    | DynRes.fault => none
    | DynRes.miss => some none
    | DynRes.found i _ => some (some i)
  else some none

/-- Read relocation record number `d` of a table whose base pointer may be
null: a null base faults on any read, as the C++ `((const Elf_Rel*)nullptr)[i]`
does. -/
def readRelAt (is32 : Bool) (f : List Nat) (base : Option Nat) (stride d : Nat) :
    Option ElfRelR :=
  match base with
  | none => none
  | some b => readRel is32 f (b + d * stride)

/-- Jump-slot match condition of the `relplt` scan: the record references the
dynsym index and its type is a jump-slot type. -/
def jumpMatch (is32 : Bool) (symidx : Nat) (r : ElfRelR) : Bool :=
  relRSym is32 r.r_info = symidx && isJumpSlotType is32 (relRType is32 r.r_info)

/-- Data-relocation match condition of the `reldyn`/`reladyn` scan. -/
def dataMatch (is32 : Bool) (symidx : Nat) (r : ElfRelR) : Bool :=
  relRSym is32 r.r_info = symidx && isDataRelType is32 (relRType is32 r.r_info)

/-- Value contributed by data-relocation record `d`, if it matches. -/
def dataRelValue (is32 : Bool) (f : List Nat) (base : Option Nat)
    (stride symidx bias d : Nat) : Option Nat :=
  match readRelAt is32 f base stride d with
  | some r => if dataMatch is32 symidx r then some (sub64 r.r_offset bias) else none
  | none => none

/-- Class selector of the GOT scan: the code path taken for `kElf32` (true)
versus `kElf64` (false); `GetSymbolGotOffset` only reaches it with the class
equal to 1 or 2. -/
def gotIs32 (info : ElfInfo) : Bool := info.elfKind = 1

/-- The record stride the GOT scan uses for all three relocation tables,
picked by class and `use_rela`. -/
def gotStride (info : ElfInfo) : Nat := relStride (gotIs32 info) info.use_rela

/-- The data-relocation table the GOT scan walks (`reladyn` under RELA,
`reldyn` otherwise). -/
def gotDataBase (info : ElfInfo) : Option Nat :=
  if info.use_rela then info.reladyn else info.reldyn

/-- The stored entry count of the data-relocation table the GOT scan walks. -/
def gotDataCount (info : ElfInfo) : Nat :=
  if info.use_rela then info.reladyn_size else info.reldyn_size

/-- The `relplt` loop of `GetSymbolGotOffset`: stop at the first matching
jump-slot relocation (`some (some off)`), `some none` when the whole table was
scanned without a match, `none` on a faulting read. -/
def pltScanAux (is32 : Bool) (f : List Nat) (base : Option Nat)
    (stride symidx bias : Nat) : Nat → Nat → Option (Option Nat)
  | _, 0 => some none
  | i, k + 1 =>
    match readRelAt is32 f base stride i with
    | none => none
    | some r =>
      if jumpMatch is32 symidx r then some (some (sub64 r.r_offset bias))
      else pltScanAux is32 f base stride symidx bias (i + 1) k

/-- The `reldyn`/`reladyn` loop of `GetSymbolGotOffset`: collect every
matching data relocation in table order. -/
def dataScanAux (is32 : Bool) (f : List Nat) (base : Option Nat)
    (stride symidx bias : Nat) : Nat → Nat → Option (List Nat)
  | _, 0 => some []
  | i, k + 1 =>
    match readRelAt is32 f base stride i with
    | none => none
    | some r =>
      let rest := dataScanAux is32 f base stride symidx bias (i + 1) k
      if dataMatch is32 symidx r then
        rest.map (fun l => sub64 r.r_offset bias :: l)
      else rest

/-- `ElfView::GetSymbolGotOffset`.  Empty name and invalid view return the
empty vector; then the dynsym index is looked up with
`searchForUndefined=true`; then `relplt` is scanned for at most one jump-slot
entry and the data relocation table selected by `use_rela` is scanned for all
matches.  The record stride for all tables is picked by `use_rela` (the Elf32
non-RELA branch of the source returns `result` mid-function, the other
branches fall through to the same `return result`; the value is identical). -/
def getSymbolGotOffset (v : ViewState) (symbol : List Nat) : Option (List Nat) :=
  if symbol = [] then some []
  else if isValid v = false then some []
  else
    match v.mElfInfo with
    | none => some []
    | some info =>
      match dynIdxStage v.mMemory info symbol with
      | none => none
      | some none => some []
      | some (some symidx) =>
        match pltScanAux (gotIs32 info) v.mMemory info.relplt (gotStride info)
            symidx info.loadBias 0 info.relplt_size with
        | none => none
        | some plt =>
          match dataScanAux (gotIs32 info) v.mMemory (gotDataBase info) (gotStride info)
              symidx info.loadBias 0 (gotDataCount info) with
          | none => none
          | some data => some (plt.toList ++ data)

/-- Accumulator of the dynamic-tag walk in `InitElfInfo`.  The source writes
`use_rela` and the six relocation fields straight into the descriptor and
keeps `sonameOffset` and the `DT_STRTAB` pointer in locals; those are the only
descriptor fields the loop touches, so they are gathered here. -/
structure DynAcc where
  sonameOffset : Nat := 0
  strtabOff : Option Nat := none
  use_rela : Bool := false
  reldyn : Option Nat := none
  reldyn_size : Nat := 0
  reladyn : Option Nat := none
  reladyn_size : Nat := 0
  relplt : Option Nat := none
  relplt_size : Nat := 0
deriving DecidableEq, Repr

/-- `sizeof(Elf32_Dyn) = 8`, `sizeof(Elf64_Dyn) = 16`. -/
def dynStride (is32 : Bool) : Nat := if is32 then 8 else 16

/-- Read the `d_un` word of the dynamic record at byte offset `p`
(`d_val`/`d_ptr` share the union at `+4` on Elf32, `+8` on Elf64). -/
def dynReadVal (is32 : Bool) (f : List Nat) (p : Nat) : Option Nat :=
  readUW is32 f (p + (if is32 then 4 else 8))

/-- One `switch (dyn->d_tag)` step of the dynamic walk; `d_un` is read
lazily, only for the recognised tags, as the source does.  Tag values:
`DT_NULL=0` (breaks only the switch), `DT_PLTRELSZ=2`, `DT_STRTAB=5`,
`DT_RELA=7`, `DT_RELASZ=8`, `DT_SONAME=14`, `DT_REL=17`, `DT_RELSZ=18`,
`DT_PLTREL=20`, `DT_JMPREL=23`.  Note that `DT_PLTRELSZ` is divided by
`sizeof(Elf_Rel)` regardless of `use_rela`, exactly as in the source. -/
def dynWalkStep (is32 : Bool) (f : List Nat) (p : Nat) (tag : Nat) (acc : DynAcc) :
    Option DynAcc :=
  if tag = 14 then (dynReadVal is32 f p).map (fun v => { acc with sonameOffset := v })
  else if tag = 5 then (dynReadVal is32 f p).map (fun v => { acc with strtabOff := some v })
  else if tag = 20 then (dynReadVal is32 f p).map (fun v => { acc with use_rela := v = 7 })
  else if tag = 17 then (dynReadVal is32 f p).map (fun v => { acc with reldyn := some v })
  else if tag = 7 then (dynReadVal is32 f p).map (fun v => { acc with reladyn := some v })
  else if tag = 18 then
    (dynReadVal is32 f p).map (fun v => { acc with reldyn_size := v / relSize is32 })
  else if tag = 8 then
    (dynReadVal is32 f p).map (fun v => { acc with reladyn_size := v / relaSize is32 })
  else if tag = 23 then (dynReadVal is32 f p).map (fun v => { acc with relplt := some v })
  else if tag = 2 then
    (dynReadVal is32 f p).map (fun v => { acc with relplt_size := v / relSize is32 })
  else some acc

set_option maxHeartbeats 1000000 in
/-- The nine descriptor updates a dynamic-tag step can make, each keyed by
its tag; `dynWalkStep` is exactly one such update or the identity. -/
theorem dynWalkStep_cases (is32 : Bool) (f : List Nat) (p tag : Nat) (acc acc2 : DynAcc)
    (h : dynWalkStep is32 f p tag acc = some acc2) :
    (∃ v, dynReadVal is32 f p = some v ∧
      ((tag = 14 ∧ acc2 = { acc with sonameOffset := v }) ∨
       (tag = 5 ∧ acc2 = { acc with strtabOff := some v }) ∨
       (tag = 20 ∧ acc2 = { acc with use_rela := v = 7 }) ∨
       (tag = 17 ∧ acc2 = { acc with reldyn := some v }) ∨
       (tag = 7 ∧ acc2 = { acc with reladyn := some v }) ∨
       (tag = 18 ∧ acc2 = { acc with reldyn_size := v / relSize is32 }) ∨
       (tag = 8 ∧ acc2 = { acc with reladyn_size := v / relaSize is32 }) ∨
       (tag = 23 ∧ acc2 = { acc with relplt := some v }) ∨
       (tag = 2 ∧ acc2 = { acc with relplt_size := v / relSize is32 })))
    ∨ (tag ≠ 14 ∧ tag ≠ 5 ∧ tag ≠ 20 ∧ tag ≠ 17 ∧ tag ≠ 7 ∧ tag ≠ 18 ∧ tag ≠ 8 ∧
        tag ≠ 23 ∧ tag ≠ 2 ∧ acc2 = acc) := by
  unfold dynWalkStep at h
  cases hval : dynReadVal is32 f p with
  | none =>
    rw [hval] at h
    split_ifs at h with h14 h5 h20 h17 h7 h18 h8 h23 h2
    · simp at h
    · simp at h
    · simp at h
    · simp at h
    · simp at h
    · simp at h
    · simp at h
    · simp at h
    · simp at h
    · cases h
      exact Or.inr ⟨h14, h5, h20, h17, h7, h18, h8, h23, h2, rfl⟩
  | some v =>
    rw [hval] at h
    split_ifs at h with h14 h5 h20 h17 h7 h18 h8 h23 h2
    · rw [Option.map_some'] at h
      cases h
      exact Or.inl ⟨v, rfl, Or.inl ⟨h14, rfl⟩⟩
    · rw [Option.map_some'] at h
      cases h
      exact Or.inl ⟨v, rfl, Or.inr (Or.inl ⟨h5, rfl⟩)⟩
    · rw [Option.map_some'] at h
      cases h
      exact Or.inl ⟨v, rfl, Or.inr (Or.inr (Or.inl ⟨h20, rfl⟩))⟩
    · rw [Option.map_some'] at h
      cases h
      exact Or.inl ⟨v, rfl, Or.inr (Or.inr (Or.inr (Or.inl ⟨h17, rfl⟩)))⟩
    · rw [Option.map_some'] at h
      cases h
      exact Or.inl ⟨v, rfl, Or.inr (Or.inr (Or.inr (Or.inr (Or.inl ⟨h7, rfl⟩))))⟩
    · rw [Option.map_some'] at h
      cases h
      exact Or.inl ⟨v, rfl, Or.inr (Or.inr (Or.inr (Or.inr (Or.inr (Or.inl ⟨h18, rfl⟩)))))⟩
    · rw [Option.map_some'] at h
      cases h
      exact Or.inl ⟨v, rfl,
        Or.inr (Or.inr (Or.inr (Or.inr (Or.inr (Or.inr (Or.inl ⟨h8, rfl⟩))))))⟩
    · rw [Option.map_some'] at h
      cases h
      exact Or.inl ⟨v, rfl,
        Or.inr (Or.inr (Or.inr (Or.inr (Or.inr (Or.inr (Or.inr (Or.inl ⟨h23, rfl⟩)))))))⟩
    · rw [Option.map_some'] at h
      cases h
      exact Or.inl ⟨v, rfl,
        Or.inr (Or.inr (Or.inr (Or.inr (Or.inr (Or.inr (Or.inr (Or.inr ⟨h2, rfl⟩)))))))⟩
    · cases h
      exact Or.inr ⟨h14, h5, h20, h17, h7, h18, h8, h23, h2, rfl⟩

/-- The dynamic-section walk: `p_memsz / sizeof(Elf_Dyn)` records starting at
`base`; later entries of a repeated tag overwrite earlier ones. -/
def dynWalk (is32 : Bool) (f : List Nat) (base : Nat) : Nat → Nat → DynAcc → Option DynAcc
  | _, 0, acc => some acc
  | i, k + 1, acc =>
    match readUW is32 f (base + i * dynStride is32) with
    | none => none
    | some tag =>
      match dynWalkStep is32 f (base + i * dynStride is32) tag acc with
      | none => none
      | some acc2 => dynWalk is32 f base (i + 1) k acc2

/-- The program-header walk: accumulates the minimum `PT_LOAD` `p_vaddr`, the
maximum `p_vaddr + p_memsz` (wrapping at the class word size, as the C++
addition does), and the offset of the last `PT_DYNAMIC` header.
`PT_LOAD=1`, `PT_DYNAMIC=2`, `PT_PHDR=6` (recorded but unused). -/
def phdrWalkAux (is32 : Bool) (f : List Nat) (phoff phentsize : Nat) :
    Nat → Nat → Nat × Nat × Option Nat → Option (Nat × Nat × Option Nat)
  | _, 0, acc => some acc
  | i, k + 1, (fs, le, pd) =>
    match readU32 f (phoff + i * phentsize) with
    | none => none
    | some ptype =>
      if ptype = 2 then phdrWalkAux is32 f phoff phentsize (i + 1) k (fs, le, some (phoff + i * phentsize))
      else if ptype = 1 then
        match readUW is32 f (phoff + i * phentsize + (if is32 then 8 else 16)),
            readUW is32 f (phoff + i * phentsize + (if is32 then 20 else 40)) with
        | some va, some ms =>
          let endv := (va + ms) % (if is32 then 2 ^ 32 else 2 ^ 64)
          phdrWalkAux is32 f phoff phentsize (i + 1) k
            (if va < fs then va else fs, if endv > le then endv else le, pd)
        | _, _ => none
      else phdrWalkAux is32 f phoff phentsize (i + 1) k (fs, le, pd)

/-- Copy the dynamic-walk accumulator into the descriptor fields the source
updates in place. -/
def applyDynAcc (info : ElfInfo) (acc : DynAcc) : ElfInfo :=
  { info with
    use_rela := acc.use_rela
    reldyn := acc.reldyn
    reldyn_size := acc.reldyn_size
    reladyn := acc.reladyn
    reladyn_size := acc.reladyn_size
    relplt := acc.relplt
    relplt_size := acc.relplt_size }

/-- Read the section pointer of a section header at byte offset `sh`:
`sh_addr` in loaded form, `sh_offset` in file form. -/
def shdrAddrOrOff (is32 : Bool) (f : List Nat) (sh : Nat) (isLoaded : Bool) :
    Option Nat :=
  if isLoaded then readUW is32 f (sh + (if is32 then 12 else 16))
  else readUW is32 f (sh + (if is32 then 16 else 24))

/-- One iteration of the section-header walk over the header at byte offset
`sh`.  Section types: `SHT_PROGBITS=1`, `SHT_SYMTAB=2`, `SHT_STRTAB=3`,
`SHT_HASH=5`, `SHT_DYNSYM=11`, `SHT_GNU_HASH=0x6ffffff6`.  Quirks preserved
from the source: `.symtab` and the raw SysV hash words are always read through
`sh_offset` even in loaded form, and `.gnu_debugdata` is only remembered in
file form (its name is still compared in loaded form). -/
def sectionStep (is32 : Bool) (f : List Nat) (shstrOff : Nat) (isLoaded : Bool)
    (sh : Nat) (info : ElfInfo) : Option ElfInfo :=
  match readU32 f sh, readU32 f (sh + 4) with
  | some shName, some shType =>
    if shType = 3 then
      match strncmpEqZ f (shstrOff + shName) (strBytes ".dynstr" ++ [0]) with
      | none => none
      | some true =>
        (shdrAddrOrOff is32 f sh isLoaded).map (fun a => { info with dynstr := some a })
      | some false =>
        match strncmpEqZ f (shstrOff + shName) (strBytes ".strtab" ++ [0]) with
        | none => none
        | some true =>
          (shdrAddrOrOff is32 f sh isLoaded).map (fun a => { info with strtab := some a })
        | some false => some info
    else if shType = 2 then
      match strncmpEqZ f (shstrOff + shName) (strBytes ".symtab" ++ [0]) with
      | none => none
      | some true =>
        match readUW is32 f (sh + (if is32 then 16 else 24)),
            readUW is32 f (sh + (if is32 then 20 else 32)) with
        | some off, some size =>
          some { info with symtab := some off, symtab_size := size / symStride is32 }
        | _, _ => none
      | some false => some info
    else if shType = 11 then
      match shdrAddrOrOff is32 f sh isLoaded,
          readUW is32 f (sh + (if is32 then 20 else 32)) with
      | some a, some size =>
        some { info with dynsym := some a, dynsym_size := size / symStride is32 }
      | _, _ => none
    else if shType = 5 then
      match shdrAddrOrOff is32 f sh isLoaded,
          readUW is32 f (sh + (if is32 then 16 else 24)) with
      | some a, some rawOff =>
        match readU32 f rawOff, readU32 f (rawOff + 4) with
        | some nb, some nc =>
          some { info with
                 sysv_hash := some a
                 sysv_hash_nbucket := nb
                 sysv_hash_nchain := nc
                 sysv_hash_bucket := some (rawOff + 8)
                 sysv_hash_chain := some (rawOff + 8 + 4 * nb) }
        | _, _ => none
      | _, _ => none
    else if shType = 0x6ffffff6 then
      (shdrAddrOrOff is32 f sh isLoaded).map (fun a => { info with gnu_hash := some a })
    else if shType = 1 then
      match strncmpEqZ f (shstrOff + shName) (strBytes ".gnu_debugdata" ++ [0]) with
      | none => none
      | some true =>
        if isLoaded = false then
          match readUW is32 f (sh + (if is32 then 16 else 24)),
              readUW is32 f (sh + (if is32 then 20 else 32)) with
          | some off, some size => some { info with miniDebugInfo := some (off, size) }
          | _, _ => none
        else some info
      | some false => some info
    else some info
  | _, _ => none

/-- The section-header walk: apply `sectionStep` to each of the `e_shnum`
headers in turn. -/
def sectionWalkAux (is32 : Bool) (f : List Nat) (shoff shentsize shstrOff : Nat)
    (isLoaded : Bool) : Nat → Nat → ElfInfo → Option ElfInfo
  | _, 0, info => some info
  | i, k + 1, info =>
    match sectionStep is32 f shstrOff isLoaded (shoff + i * shentsize) info with
    | none => none
    | some info2 => sectionWalkAux is32 f shoff shentsize shstrOff isLoaded (i + 1) k info2

/-- `InitElfInfo<kElfClass>`: header fields at their ELF32/ELF64 byte
offsets, the program-header walk (with `loadBias` = minimum `PT_LOAD`
`p_vaddr`, initialised to `uint64_t` max, and
`loadedSize = lastEnd - firstStart` in wrapping 64-bit arithmetic), the
dynamic walk based at `p_vaddr` (loaded) or `p_offset` (file) of the last
`PT_DYNAMIC`, the soname extraction, and the section-header walk. -/
def initPhase1 (is32 : Bool) (f : List Nat) (info0 : ElfInfo) (isLoaded : Bool) :
    Option ElfInfo :=
  match readU16 f 18 with
  | none => none
  | some machine =>
    match readUW is32 f (if is32 then 28 else 32) with
    | none => none
    | some phoff =>
      if phoff = 0 then some { info0 with machine := machine }
      else
        match readU16 f (if is32 then 44 else 56), readU16 f (if is32 then 42 else 54) with
        | some phnum, some phentsize =>
          match phdrWalkAux is32 f phoff phentsize 0 phnum (2 ^ 64 - 1, 0, none) with
          | none => none
          | some acc =>
            match acc.2.2 with
            | none =>
              some { info0 with
                     machine := machine
                     loadBias := acc.1
                     loadedSize := sub64 acc.2.1 acc.1 }
            | some pOff =>
              match readUW is32 f (pOff + (if is32 then 20 else 40)),
                  (if isLoaded then readUW is32 f (pOff + (if is32 then 8 else 16))
                   else readUW is32 f (pOff + (if is32 then 4 else 8))) with
              | some pmemsz, some dbase =>
                match dynWalk is32 f dbase 0 (pmemsz / dynStride is32) {} with
                | none => none
                | some dacc =>
                  match dacc.strtabOff with
                  | some sOff =>
                    if dacc.sonameOffset ≠ 0 then
                      match readCStr f (sOff + dacc.sonameOffset) with
                      | none => none
                      | some s =>
                        some { applyDynAcc
                            { info0 with
                              machine := machine
                              loadBias := acc.1
                              loadedSize := sub64 acc.2.1 acc.1 } dacc with
                            soname := s }
                    else
                      some (applyDynAcc
                        { info0 with
                          machine := machine
                          loadBias := acc.1
                          loadedSize := sub64 acc.2.1 acc.1 } dacc)
                  | none =>
                    some (applyDynAcc
                      { info0 with
                        machine := machine
                        loadBias := acc.1
                        loadedSize := sub64 acc.2.1 acc.1 } dacc)
              | _, _ => none
        | _, _ => none

/-- `InitElfInfo<kElfClass>` assembled from its first half and the
section-header walk (`e_shoff`, `e_shnum`, `e_shentsize`, `e_shstrndx`, the
section-header string table pointer, then the per-section loop). -/
def initElfInfo (is32 : Bool) (f : List Nat) (info0 : ElfInfo) (isLoaded : Bool) :
    Option ElfInfo :=
  match initPhase1 is32 f info0 isLoaded with
  | none => none
  | some i2 =>
    match readUW is32 f (if is32 then 32 else 40) with
    | none => none
    | some shoff =>
      if shoff = 0 then some i2
      else
        match readU16 f (if is32 then 48 else 60), readU16 f (if is32 then 46 else 58),
            readU16 f (if is32 then 50 else 62) with
        | some shnum, some shentsize, some shstrndx =>
          match shdrAddrOrOff is32 f (shoff + shstrndx * shentsize) isLoaded with
          | none => none
          | some shstrOff =>
            sectionWalkAux is32 f shoff shentsize shstrOff isLoaded 0 shnum i2
        | _, _, _ => none

/-- True when the range starts with the 4-byte ELF magic `7F 45 4C 46`
(`memcmp(data, ELFMAG, SELFMAG) == 0`; evaluated only after the length
check, hence the defaulted reads). -/
def checkElfMagic (f : List Nat) : Bool :=
  f.getD 0 0 = 0x7F && f.getD 1 0 = 0x45 && f.getD 2 0 = 0x4C && f.getD 3 0 = 0x46

/-- The loop body of `ParseDebugSymbol`: walk the embedded `.symtab`, skip
entries whose name starts with NUL, and `emplace` the rest (first insertion
wins).  A null `symtab`/`strtab` pointer faults as soon as the loop body runs
(the source dereferences `nullptr + offset`). -/
def addDebugSymsAux (is32 : Bool) (input : List Nat) (stOff strOff : Option Nat) :
    Nat → Nat → List (List Nat × Nat) → Option (List (List Nat × Nat))
  | _, 0, m => some m
  | i, k + 1, m => do
    let st ← stOff
    let str ← strOff
    let sym ← readSym is32 input (st + i * symStride is32)
    let b0 ← readU8 input (str + sym.st_name)
    if b0 = 0 then addDebugSymsAux is32 input stOff strOff (i + 1) k m
    else do
      let nm ← readCStr input (str + sym.st_name)
      addDebugSymsAux is32 input stOff strOff (i + 1) k (emplaceSym m nm sym.st_value)

/-- `ElfView::ParseDebugSymbol`: re-parse the decompressed blob as a file-form
ELF with a temporary descriptor, then flatten its `.symtab` into the outer
descriptor's `compressedDebugSymbols`. -/
def parseDebugSymbol (input : List Nat) (info : ElfInfo) : Option ElfInfo :=
  if input.length < 64 ∨ checkElfMagic input = false then some info
  else do
    let cls := input.getD 4 0
    let emb ←
      if cls = 1 then initElfInfo true input { elfKind := cls } false
      else if cls = 2 then initElfInfo false input { elfKind := cls } false
      else pure { elfKind := cls }
    if emb.elfKind = 1 then do
      let m ← addDebugSymsAux true input emb.symtab emb.strtab 0 emb.symtab_size
        info.compressedDebugSymbols
      pure { info with compressedDebugSymbols := m }
    else if emb.elfKind = 2 then do
      let m ← addDebugSymsAux false input emb.symtab emb.strtab 0 emb.symtab_size
        info.compressedDebugSymbols
      pure { info with compressedDebugSymbols := m }
    else pure info

/-- `ElfView::ParseMiniDebugInfo` on the span `(off, sz)` of the attached
range: check the XZ magic byte by byte (each byte read only if the previous
matched, as the `||` chain short-circuits), hand the span to the external
decompressor `dec` (the `DecodeXzData` collaborator; `none` = failure), and on
success parse the blob.  A span reaching past the attached range faults when
the decompressor would read it. -/
def parseMiniDebugInfo (dec : List Nat → Option (List Nat)) (f : List Nat)
    (off sz : Nat) (info : ElfInfo) : Option ElfInfo :=
  if sz < 6 then some info
  else do
    let b0 ← readU8 f off
    if b0 ≠ 0xFD then some info
    else do
      let b1 ← readU8 f (off + 1)
      if b1 ≠ 0x37 then some info
      else do
        let b2 ← readU8 f (off + 2)
        if b2 ≠ 0x7A then some info
        else do
          let b3 ← readU8 f (off + 3)
          if b3 ≠ 0x58 then some info
          else do
            let b4 ← readU8 f (off + 4)
            if b4 ≠ 0x5A then some info
            else
              if off + sz ≤ f.length then
                match dec ((f.drop off).take sz) with
                | none => some info
                | some d => if d = [] then some info else parseDebugSymbol d info
              else none

/-- `ElfView::AttachFileMemMapping`: store the span, allocate a fresh
descriptor, and when the range is at least 64 bytes and starts with the ELF
magic, copy byte 4 into the class field and run `InitElfInfo` for class 1 or
2 (any other byte value keeps the raw class and skips parsing); finally parse
the mini debug info when present.  A null span is the empty list. -/
def attachFileMemMapping (dec : List Nat → Option (List Nat)) (fileMap : List Nat) :
    Option ViewState := do
  if fileMap.length < 64 ∨ checkElfMagic fileMap = false then
    pure { mMemory := fileMap, mElfInfo := some {}, mIsLoaded := false }
  else do
    let cls := fileMap.getD 4 0
    let info ←
      if cls = 1 then initElfInfo true fileMap { elfKind := cls } false
      else if cls = 2 then initElfInfo false fileMap { elfKind := cls } false
      else pure { elfKind := cls }
    let info2 ←
      match info.miniDebugInfo with
      | none => pure info
      | some (off, sz) =>
        if sz = 0 then pure info
        else parseMiniDebugInfo dec fileMap off sz info
    pure { mMemory := fileMap, mElfInfo := some info2, mIsLoaded := false }

/-- `ElfView::AttachLoadedMemoryView`: as the file-form attach but with the
loaded flag set and without the mini-debug-info step. -/
def attachLoadedMemoryView (memory : List Nat) : Option ViewState := do
  if memory.length < 64 ∨ checkElfMagic memory = false then
    pure { mMemory := memory, mElfInfo := some {}, mIsLoaded := true }
  else do
    let cls := memory.getD 4 0
    let info ←
      if cls = 1 then initElfInfo true memory { elfKind := cls } true
      else if cls = 2 then initElfInfo false memory { elfKind := cls } true
      else pure { elfKind := cls }
    pure { mMemory := memory, mElfInfo := some info, mIsLoaded := true }

/-- The raw class byte of a view (`elfClass` through the live descriptor,
0 when the descriptor is gone). -/
def kindOf (v : ViewState) : Nat :=
  match v.mElfInfo with
  | some info => info.elfKind
  | none => 0

/-- A decompressor stub standing in for the external `DecodeXzData`
collaborator in tests that never reach it. -/
def noDec : List Nat → Option (List Nat) := fun _ => none

/-- Little-endian byte splitting, for building concrete test images. -/
def le16 (n : Nat) : List Nat := [n % 256, n / 256 % 256]

/-- Little-endian 32-bit byte splitting. -/
def le32 (n : Nat) : List Nat :=
  [n % 256, n / 256 % 256, n / 65536 % 256, n / 16777216 % 256]

/-- A 64-byte range with a correct ELF magic whose class byte (index 4) is 3,
which is neither `kElf32` nor `kElf64`. -/
def img3 : List Nat := [0x7F, 0x45, 0x4C, 0x46, 3] ++ List.replicate 59 0

/-- A minimal 112-byte Elf32 file image: ELF header (`e_machine=40`,
`e_phoff=64`, `e_phnum=1`, `e_phentsize=32`, `e_shoff=0`), one `PT_DYNAMIC`
program header covering a 2-entry dynamic section at offset 96 holding
`DT_PLTREL = DT_RELA` and `DT_PLTRELSZ = 24`. -/
def imgPltrelsz : List Nat :=
  [0x7F, 0x45, 0x4C, 0x46, 1] ++ List.replicate 13 0
  ++ le16 40 ++ le32 0 ++ le32 0
  ++ le32 64 ++ le32 0 ++ le32 0
  ++ le16 0 ++ le16 32 ++ le16 1 ++ le16 0 ++ le16 0 ++ le16 0
  ++ List.replicate 12 0
  ++ le32 2 ++ le32 96 ++ le32 96 ++ le32 0 ++ le32 16 ++ le32 16 ++ le32 0 ++ le32 0
  ++ le32 20 ++ le32 7
  ++ le32 2 ++ le32 24

/-- Memory of an Elf32 view with three dynsym entries (names via `dynstr` at
offset 48: entry 0 unnamed, entry 1 named `fa` with `st_value=0`, entry 2
named `fb` with `st_value=5`); the shape a file-form attach of a hashless
object produces. -/
def memA : List Nat :=
  (List.replicate 16 0)
  ++ (le32 1 ++ le32 0 ++ List.replicate 8 0)
  ++ (le32 4 ++ le32 5 ++ List.replicate 8 0)
  ++ [0, 102, 97, 0, 102, 98, 0]

/-- Descriptor for `memA`: Elf32, dynsym at 0 with 3 entries, dynstr at 48,
no hash tables, zero load bias. -/
def infoA : ElfInfo :=
  { elfKind := 1, dynsym := some 0, dynsym_size := 3, dynstr := some 48, loadBias := 0 }

/-- View over `memA`. -/
def vA : ViewState := { mMemory := memA, mElfInfo := some infoA, mIsLoaded := false }

/-- Memory of an Elf32 view carrying a GNU hash table (at offset 0: 1 bucket,
`symoffset=5`, a 1-word all-ones bloom filter, bucket 0 pointing at symbol
index 5, chain entry `elf_gnu_hash "fb"`), a dynsym at offset 28 whose
record 5 is named `fb` with `st_value=7`, and dynstr at offset 124.  The
recorded `dynsym_size` below is 1, so the hash finds an index the linear
scans never visit. -/
def memB : List Nat :=
  le32 1 ++ le32 5 ++ le32 1 ++ le32 0
  ++ le32 0xFFFFFFFF ++ le32 5 ++ le32 5863373
  ++ (List.replicate 80 0)
  ++ (le32 1 ++ le32 7 ++ List.replicate 8 0)
  ++ [0, 102, 98, 0]

/-- Descriptor for `memB`. -/
def infoB : ElfInfo :=
  { elfKind := 1, dynsym := some 28, dynsym_size := 1, dynstr := some 124,
    gnu_hash := some 0, loadBias := 0 }

/-- View over `memB`. -/
def vB : ViewState := { mMemory := memB, mElfInfo := some infoB, mIsLoaded := false }

/-- Memory of an Elf32 view with an imported symbol `m` (dynsym index 1,
`st_value=0`), one `R_ARM_JUMP_SLOT` relocation for it at `r_offset=0x3008`
(relplt at offset 35) and one `R_ARM_GLOB_DAT` relocation at
`r_offset=0x4010` (reldyn at offset 43); the spec's scenario S2 shape. -/
def memG : List Nat :=
  (List.replicate 16 0)
  ++ (le32 1 ++ le32 0 ++ List.replicate 8 0)
  ++ [0, 109, 0]
  ++ (le32 0x3008 ++ le32 278)
  ++ (le32 0x4010 ++ le32 277)

/-- Descriptor for `memG`: `loadBias = 0x1000`, REL-form tables. -/
def infoG : ElfInfo :=
  { elfKind := 1, dynsym := some 0, dynsym_size := 2, dynstr := some 32,
    relplt := some 35, relplt_size := 1, reldyn := some 43, reldyn_size := 1,
    use_rela := false, loadBias := 0x1000 }

/-- View over `memG`. -/
def vG : ViewState := { mMemory := memG, mElfInfo := some infoG, mIsLoaded := false }

/-- Descriptor like `infoG` but with a `DT_PLTRELSZ`-derived count and no
`DT_JMPREL` base, the configuration whose scan reads through a null pointer. -/
def infoF : ElfInfo :=
  { elfKind := 1, dynsym := some 0, dynsym_size := 2, dynstr := some 32,
    relplt := none, relplt_size := 3, use_rela := false, loadBias := 0 }

/-- View over `memG` with descriptor `infoF`. -/
def vF : ViewState := { mMemory := memG, mElfInfo := some infoF, mIsLoaded := false }

/-- Spec-side reading of the phrase "the byte size taken from its dynamic
tag": the `d_un.d_val` of the last entry with the given tag among the walked
dynamic records (the source overwrites on repeats), `some none` when the tag
never occurs.  Used only to compare the stored counts against the spec's
formula. -/
def lastDynTagVal (is32 : Bool) (f : List Nat) (base tag : Nat) :
    Nat → Nat → Option Nat → Option (Option Nat)
  | _, 0, cur => some cur
  | i, k + 1, cur =>
    match readUW is32 f (base + i * dynStride is32) with
    | none => none
    | some t =>
      if t = tag then
        match dynReadVal is32 f (base + i * dynStride is32) with
        | none => none
        | some v => lastDynTagVal is32 f base tag (i + 1) k (some v)
      else lastDynTagVal is32 f base tag (i + 1) k cur

/-- The dynamic-walk accumulator produced by the 2-entry dynamic section of
`imgPltrelsz`. -/
def accPltrelsz : DynAcc := { use_rela := true, relplt_size := 3 }

/-- The descriptor produced by `InitElfInfo` on `imgPltrelsz` (no `PT_LOAD`
segment, so `loadBias` keeps the `uint64_t` max initial value and
`loadedSize` wraps to 1). -/
def infoPltrelsz : ElfInfo :=
  { elfKind := 1, machine := 40, loadBias := 2 ^ 64 - 1, loadedSize := 1,
    use_rela := true, relplt_size := 3 }

/-- Shared helper: on a view whose descriptor is the default one (fresh
construction, or an attach that failed structural validation), the symbol
queries miss for every name. -/
theorem defaultDescriptor_query_misses (v : ViewState) (hv : v.mElfInfo = some {}) :
    ∀ s, getSymbolOffset v s = some 0 ∧ getSymbolGotOffset v s = some [] := by
  intro s
  constructor
  · by_cases hs : s = []
    · simp [getSymbolOffset, getSymbolOffsetR, hs]
    · simp [getSymbolOffset, getSymbolOffsetR, hs, hv, dynStage, symtabStage, listLookup]
  · by_cases hs : s = []
    · simp [getSymbolGotOffset, hs]
    · simp [getSymbolGotOffset, hs, isValid, hv]

/-- Shared helper: effect of one dynamic-tag step on the three stored
relocation counts - only `DT_PLTRELSZ=2`, `DT_RELSZ=18`, `DT_RELASZ=8` touch
them, each dividing the freshly read `d_val` by its fixed record size. -/
theorem dynWalkStep_size_effects (is32 : Bool) (f : List Nat) (p t : Nat)
    (acc acc2 : DynAcc) (h : dynWalkStep is32 f p t acc = some acc2) :
    ((t ≠ 2 ∧ acc2.relplt_size = acc.relplt_size) ∨
      (t = 2 ∧ ∃ v, dynReadVal is32 f p = some v ∧
        acc2.relplt_size = v / relSize is32))
    ∧ ((t ≠ 18 ∧ acc2.reldyn_size = acc.reldyn_size) ∨
      (t = 18 ∧ ∃ v, dynReadVal is32 f p = some v ∧
        acc2.reldyn_size = v / relSize is32))
    ∧ ((t ≠ 8 ∧ acc2.reladyn_size = acc.reladyn_size) ∨
      (t = 8 ∧ ∃ v, dynReadVal is32 f p = some v ∧
        acc2.reladyn_size = v / relaSize is32)) := by
  rcases dynWalkStep_cases is32 f p t acc acc2 h with ⟨v, hv, hcase⟩ |
    ⟨n14, n5, n20, n17, n7, n18, n8, n23, n2, rfl⟩
  · rcases hcase with ⟨ht, rfl⟩ | ⟨ht, rfl⟩ | ⟨ht, rfl⟩ | ⟨ht, rfl⟩ | ⟨ht, rfl⟩ |
      ⟨ht, rfl⟩ | ⟨ht, rfl⟩ | ⟨ht, rfl⟩ | ⟨ht, rfl⟩
    · exact ⟨Or.inl ⟨by omega, rfl⟩, Or.inl ⟨by omega, rfl⟩, Or.inl ⟨by omega, rfl⟩⟩
    · exact ⟨Or.inl ⟨by omega, rfl⟩, Or.inl ⟨by omega, rfl⟩, Or.inl ⟨by omega, rfl⟩⟩
    · exact ⟨Or.inl ⟨by omega, rfl⟩, Or.inl ⟨by omega, rfl⟩, Or.inl ⟨by omega, rfl⟩⟩
    · exact ⟨Or.inl ⟨by omega, rfl⟩, Or.inl ⟨by omega, rfl⟩, Or.inl ⟨by omega, rfl⟩⟩
    · exact ⟨Or.inl ⟨by omega, rfl⟩, Or.inl ⟨by omega, rfl⟩, Or.inl ⟨by omega, rfl⟩⟩
    · exact ⟨Or.inl ⟨by omega, rfl⟩, Or.inr ⟨ht, v, hv, rfl⟩, Or.inl ⟨by omega, rfl⟩⟩
    · exact ⟨Or.inl ⟨by omega, rfl⟩, Or.inl ⟨by omega, rfl⟩, Or.inr ⟨ht, v, hv, rfl⟩⟩
    · exact ⟨Or.inl ⟨by omega, rfl⟩, Or.inl ⟨by omega, rfl⟩, Or.inl ⟨by omega, rfl⟩⟩
    · exact ⟨Or.inr ⟨ht, v, hv, rfl⟩, Or.inl ⟨by omega, rfl⟩, Or.inl ⟨by omega, rfl⟩⟩
  · exact ⟨Or.inl ⟨n2, rfl⟩, Or.inl ⟨n18, rfl⟩, Or.inl ⟨n8, rfl⟩⟩

/-- Shared helper: once the cursor of `lastDynTagVal` is set it never becomes
`none` again. -/
theorem lastDynTagVal_isSome (is32 : Bool) (f : List Nat) (base tag : Nat) :
    ∀ (k i v : Nat) (o : Option Nat),
      lastDynTagVal is32 f base tag i k (some v) = some o → o.isSome = true := by
  intro k
  induction k with
  | zero =>
    intro i v o h
    rw [lastDynTagVal] at h
    cases h
    rfl
  | succ k ih =>
    intro i v o h
    rw [lastDynTagVal] at h
    split at h
    · exact Option.noConfusion h
    · rename_i t htag
      split at h
      · split at h
        · exact Option.noConfusion h
        · rename_i w hval
          exact ih (i + 1) w o h
      · exact ih (i + 1) v o h

/-- Shared helper: after any completed dynamic-tag walk the three stored
counts equal the last `d_val` seen for their tag, divided by the fixed record
sizes `sizeof(Elf_Rel)`, `sizeof(Elf_Rel)` and `sizeof(Elf_Rela)`
respectively - the divisor for `DT_PLTRELSZ` ignores `use_rela`. -/
theorem dynWalk_sizes (is32 : Bool) (f : List Nat) (base : Nat) :
    ∀ (k i : Nat) (acc0 acc : DynAcc) (pc rc ac : Option Nat),
      dynWalk is32 f base i k acc0 = some acc →
      (∀ v, pc = some v → acc0.relplt_size = v / relSize is32) →
      (∀ v, rc = some v → acc0.reldyn_size = v / relSize is32) →
      (∀ v, ac = some v → acc0.reladyn_size = v / relaSize is32) →
      ∃ po ro ao,
        lastDynTagVal is32 f base 2 i k pc = some po ∧
        lastDynTagVal is32 f base 18 i k rc = some ro ∧
        lastDynTagVal is32 f base 8 i k ac = some ao ∧
        (∀ v, po = some v → acc.relplt_size = v / relSize is32) ∧
        (po = none → acc.relplt_size = acc0.relplt_size) ∧
        (∀ v, ro = some v → acc.reldyn_size = v / relSize is32) ∧
        (ro = none → acc.reldyn_size = acc0.reldyn_size) ∧
        (∀ v, ao = some v → acc.reladyn_size = v / relaSize is32) ∧
        (ao = none → acc.reladyn_size = acc0.reladyn_size) := by
  intro k
  induction k with
  | zero =>
    intro i acc0 acc pc rc ac h hp hr ha
    rw [dynWalk] at h
    cases h
    exact ⟨pc, rc, ac, by rw [lastDynTagVal], by rw [lastDynTagVal], by rw [lastDynTagVal],
      hp, fun _ => rfl, hr, fun _ => rfl, ha, fun _ => rfl⟩
  | succ k ih =>
    intro i acc0 acc pc rc ac h hp hr ha
    rw [dynWalk] at h
    split at h
    · exact Option.noConfusion h
    · rename_i t htag
      split at h
      · exact Option.noConfusion h
      · rename_i acc1 hstep
        have eff := dynWalkStep_size_effects is32 f (base + i * dynStride is32) t acc0 acc1 hstep
        by_cases ht2 : t = 2
        · rcases eff.1 with ⟨hne, _⟩ | ⟨_, v2, hv2, hsz2⟩
          · exact absurd ht2 hne
          have hpr : acc1.reldyn_size = acc0.reldyn_size := by
            rcases eff.2.1 with ⟨_, e⟩ | ⟨he, _⟩
            · exact e
            · omega
          have hpa : acc1.reladyn_size = acc0.reladyn_size := by
            rcases eff.2.2 with ⟨_, e⟩ | ⟨he, _⟩
            · exact e
            · omega
          obtain ⟨po, ro, ao, e2, e18, e8, c1, c2, c3, c4, c5, c6⟩ :=
            ih (i + 1) acc1 acc (some v2) rc ac h
              (fun v hv => by cases hv; exact hsz2)
              (fun v hv => hpr.trans (hr v hv))
              (fun v hv => hpa.trans (ha v hv))
          refine ⟨po, ro, ao, ?_, ?_, ?_, c1, ?_, c3, fun hn => (c4 hn).trans hpr,
            c5, fun hn => (c6 hn).trans hpa⟩
          · simp only [lastDynTagVal, htag]
            rw [if_pos ht2]
            simp only [hv2]
            exact e2
          · simp only [lastDynTagVal, htag]
            rw [if_neg (show t ≠ 18 by omega)]
            exact e18
          · simp only [lastDynTagVal, htag]
            rw [if_neg (show t ≠ 8 by omega)]
            exact e8
          · intro hn
            have := lastDynTagVal_isSome is32 f base 2 (k) (i + 1) v2 po e2
            rw [hn] at this
            cases this
        · by_cases ht18 : t = 18
          · rcases eff.2.1 with ⟨hne, _⟩ | ⟨_, v2, hv2, hsz2⟩
            · exact absurd ht18 hne
            have hpp : acc1.relplt_size = acc0.relplt_size := by
              rcases eff.1 with ⟨_, e⟩ | ⟨he, _⟩
              · exact e
              · omega
            have hpa : acc1.reladyn_size = acc0.reladyn_size := by
              rcases eff.2.2 with ⟨_, e⟩ | ⟨he, _⟩
              · exact e
              · omega
            obtain ⟨po, ro, ao, e2, e18, e8, c1, c2, c3, c4, c5, c6⟩ :=
              ih (i + 1) acc1 acc pc (some v2) ac h
                (fun v hv => hpp.trans (hp v hv))
                (fun v hv => by cases hv; exact hsz2)
                (fun v hv => hpa.trans (ha v hv))
            refine ⟨po, ro, ao, ?_, ?_, ?_, c1, fun hn => (c2 hn).trans hpp, c3, ?_,
              c5, fun hn => (c6 hn).trans hpa⟩
            · simp only [lastDynTagVal, htag]
              rw [if_neg (show t ≠ 2 by omega)]
              exact e2
            · simp only [lastDynTagVal, htag]
              rw [if_pos ht18]
              simp only [hv2]
              exact e18
            · simp only [lastDynTagVal, htag]
              rw [if_neg (show t ≠ 8 by omega)]
              exact e8
            · intro hn
              have := lastDynTagVal_isSome is32 f base 18 (k) (i + 1) v2 ro e18
              rw [hn] at this
              cases this
          · by_cases ht8 : t = 8
            · rcases eff.2.2 with ⟨hne, _⟩ | ⟨_, v2, hv2, hsz2⟩
              · exact absurd ht8 hne
              have hpp : acc1.relplt_size = acc0.relplt_size := by
                rcases eff.1 with ⟨_, e⟩ | ⟨he, _⟩
                · exact e
                · omega
              have hpr : acc1.reldyn_size = acc0.reldyn_size := by
                rcases eff.2.1 with ⟨_, e⟩ | ⟨he, _⟩
                · exact e
                · omega
              obtain ⟨po, ro, ao, e2, e18, e8, c1, c2, c3, c4, c5, c6⟩ :=
                ih (i + 1) acc1 acc pc rc (some v2) h
                  (fun v hv => hpp.trans (hp v hv))
                  (fun v hv => hpr.trans (hr v hv))
                  (fun v hv => by cases hv; exact hsz2)
              refine ⟨po, ro, ao, ?_, ?_, ?_, c1, fun hn => (c2 hn).trans hpp, c3,
                fun hn => (c4 hn).trans hpr, c5, ?_⟩
              · simp only [lastDynTagVal, htag]
                rw [if_neg (show t ≠ 2 by omega)]
                exact e2
              · simp only [lastDynTagVal, htag]
                rw [if_neg (show t ≠ 18 by omega)]
                exact e18
              · simp only [lastDynTagVal, htag]
                rw [if_pos ht8]
                simp only [hv2]
                exact e8
              · intro hn
                have := lastDynTagVal_isSome is32 f base 8 (k) (i + 1) v2 ao e8
                rw [hn] at this
                cases this
            · have hpp : acc1.relplt_size = acc0.relplt_size := by
                rcases eff.1 with ⟨_, e⟩ | ⟨he, _⟩
                · exact e
                · exact absurd he ht2
              have hpr : acc1.reldyn_size = acc0.reldyn_size := by
                rcases eff.2.1 with ⟨_, e⟩ | ⟨he, _⟩
                · exact e
                · exact absurd he ht18
              have hpa : acc1.reladyn_size = acc0.reladyn_size := by
                rcases eff.2.2 with ⟨_, e⟩ | ⟨he, _⟩
                · exact e
                · exact absurd he ht8
              obtain ⟨po, ro, ao, e2, e18, e8, c1, c2, c3, c4, c5, c6⟩ :=
                ih (i + 1) acc1 acc pc rc ac h
                  (fun v hv => hpp.trans (hp v hv))
                  (fun v hv => hpr.trans (hr v hv))
                  (fun v hv => hpa.trans (ha v hv))
              refine ⟨po, ro, ao, ?_, ?_, ?_, c1, fun hn => (c2 hn).trans hpp, c3,
                fun hn => (c4 hn).trans hpr, c5, fun hn => (c6 hn).trans hpa⟩
              · simp only [lastDynTagVal, htag]
                rw [if_neg ht2]
                exact e2
              · simp only [lastDynTagVal, htag]
                rw [if_neg ht18]
                exact e18
              · simp only [lastDynTagVal, htag]
                rw [if_neg ht8]
                exact e8

/-- Shared helper: a section-header step never changes `use_rela` or the
three relocation counts. -/
theorem sectionStep_preserves (is32 : Bool) (f : List Nat) (shstrOff : Nat)
    (isLoaded : Bool) (sh : Nat) (a b : ElfInfo)
    (h : sectionStep is32 f shstrOff isLoaded sh a = some b) :
    b.use_rela = a.use_rela ∧ b.relplt_size = a.relplt_size ∧
    b.reldyn_size = a.reldyn_size ∧ b.reladyn_size = a.reladyn_size := by
  unfold sectionStep at h
  repeat' split at h
  all_goals try exact Option.noConfusion h
  all_goals try (rcases Option.map_eq_some'.mp h with ⟨x, hx, rfl⟩; exact ⟨rfl, rfl, rfl, rfl⟩)
  all_goals cases h
  all_goals exact ⟨rfl, rfl, rfl, rfl⟩

/-- Shared helper: the section-header walk never changes `use_rela` or the
three relocation counts. -/
theorem sectionWalkAux_preserves (is32 : Bool) (f : List Nat)
    (shoff shentsize shstrOff : Nat) (isLoaded : Bool) :
    ∀ (k i : Nat) (a b : ElfInfo),
      sectionWalkAux is32 f shoff shentsize shstrOff isLoaded i k a = some b →
      b.use_rela = a.use_rela ∧ b.relplt_size = a.relplt_size ∧
      b.reldyn_size = a.reldyn_size ∧ b.reladyn_size = a.reladyn_size := by
  intro k
  induction k with
  | zero =>
    intro i a b h
    rw [sectionWalkAux] at h
    cases h
    exact ⟨rfl, rfl, rfl, rfl⟩
  | succ k ih =>
    intro i a b h
    rw [sectionWalkAux] at h
    cases hstep : sectionStep is32 f shstrOff isLoaded (shoff + i * shentsize) a with
    | none => rw [hstep] at h; cases h
    | some a2 =>
      rw [hstep] at h
      have hp := sectionStep_preserves is32 f shstrOff isLoaded (shoff + i * shentsize) a a2 hstep
      have hq := ih (i + 1) a2 b h
      exact ⟨hq.1.trans hp.1, hq.2.1.trans hp.2.1, hq.2.2.1.trans hp.2.2.1,
        hq.2.2.2.trans hp.2.2.2⟩

/-- Shared helper: the first half of `InitElfInfo` starting from a descriptor
with cleared relocation counts stores exactly the counts and `use_rela` of
some completed dynamic walk from the empty accumulator (an empty walk when
the image has no program headers or no `PT_DYNAMIC`). -/
theorem initPhase1_counts (is32 : Bool) (f : List Nat) (info0 info : ElfInfo)
    (isLoaded : Bool) (hu : info0.use_rela = false) (hpz : info0.relplt_size = 0)
    (hrz : info0.reldyn_size = 0) (haz : info0.reladyn_size = 0)
    (h : initPhase1 is32 f info0 isLoaded = some info) :
    ∃ (base k : Nat) (acc : DynAcc),
      dynWalk is32 f base 0 k {} = some acc ∧
      info.relplt_size = acc.relplt_size ∧
      info.reldyn_size = acc.reldyn_size ∧
      info.reladyn_size = acc.reladyn_size ∧
      info.use_rela = acc.use_rela := by
  unfold initPhase1 at h
  split at h
  · exact Option.noConfusion h
  split at h
  · exact Option.noConfusion h
  split at h
  · cases h
    exact ⟨0, 0, {}, by rw [dynWalk], hpz, hrz, haz, hu⟩
  · split at h
    · split at h
      · exact Option.noConfusion h
      · split at h
        · cases h
          exact ⟨0, 0, {}, by rw [dynWalk], hpz, hrz, haz, hu⟩
        · split at h
          · split at h
            · exact Option.noConfusion h
            · rename_i dacc hdyn
              split at h
              · split at h
                · split at h
                  · exact Option.noConfusion h
                  · cases h
                    exact ⟨_, _, dacc, hdyn, rfl, rfl, rfl, rfl⟩
                · cases h
                  exact ⟨_, _, dacc, hdyn, rfl, rfl, rfl, rfl⟩
              · cases h
                exact ⟨_, _, dacc, hdyn, rfl, rfl, rfl, rfl⟩
          · exact Option.noConfusion h
    · exact Option.noConfusion h

/-- Shared helper: a completed `InitElfInfo` starting from a descriptor with
cleared relocation counts stores exactly the counts and `use_rela` of some
completed dynamic walk from the empty accumulator. -/
theorem initElfInfo_counts (is32 : Bool) (f : List Nat) (info0 info : ElfInfo)
    (isLoaded : Bool) (hu : info0.use_rela = false) (hpz : info0.relplt_size = 0)
    (hrz : info0.reldyn_size = 0) (haz : info0.reladyn_size = 0)
    (h : initElfInfo is32 f info0 isLoaded = some info) :
    ∃ (base k : Nat) (acc : DynAcc),
      dynWalk is32 f base 0 k {} = some acc ∧
      info.relplt_size = acc.relplt_size ∧
      info.reldyn_size = acc.reldyn_size ∧
      info.reladyn_size = acc.reladyn_size ∧
      info.use_rela = acc.use_rela := by
  unfold initElfInfo at h
  split at h
  · exact Option.noConfusion h
  · rename_i i2 hp1
    obtain ⟨base, k, acc, hw, e1, e2, e3, e4⟩ :=
      initPhase1_counts is32 f info0 i2 isLoaded hu hpz hrz haz hp1
    split at h
    · exact Option.noConfusion h
    · split at h
      · cases h
        exact ⟨base, k, acc, hw, e1, e2, e3, e4⟩
      · split at h
        · split at h
          · exact Option.noConfusion h
          · have hpres := sectionWalkAux_preserves is32 f _ _ _ isLoaded _ 0 i2 info h
            exact ⟨base, k, acc, hw, hpres.2.1.trans e1, hpres.2.2.1.trans e2,
              hpres.2.2.2.trans e3, hpres.1.trans e4⟩
        · exact Option.noConfusion h

/-- Claim C5 (counterexample): attaching the concrete Elf32 image whose
dynamic section sets `DT_PLTREL = DT_RELA` and `DT_PLTRELSZ = 24` stores
`relplt_size = 3` (division by `sizeof(Elf32_Rel) = 8`), although the record
shape actually used for `relplt` on this image is `Elf32_Rela` of size 12, so
the claim's value would be 2. -/
theorem pltrelszCount_refutes_claim :
    (attachFileMemMapping noDec imgPltrelsz).map
      (fun st => st.mElfInfo.map (fun i => (i.use_rela, i.relplt_size))) =
      some (some (true, 3))
    ∧ (3 : Nat) ≠ 24 / 12 := by
  constructor
  · decide
  · decide

/-- Claim C5 (amended): for every attach, the stored counts equal the byte
size taken from the dynamic tag divided by a fixed record size - `DT_RELSZ`
by `sizeof(Elf_Rel)`, `DT_RELASZ` by `sizeof(Elf_Rela)`, and `DT_PLTRELSZ`
also by `sizeof(Elf_Rel)` regardless of `use_rela` (so `relplt_size`
overcounts by half on RELA images).  Stated as: (1) any completed dynamic
walk yields counts equal to the last tag value over those divisors; (2) any
completed `InitElfInfo` starting from a descriptor with cleared counts stores
exactly the counts of such a walk. -/
theorem dynCounts_amended :
    (∀ (is32 : Bool) (f : List Nat) (base k : Nat) (acc0 acc : DynAcc),
      dynWalk is32 f base 0 k acc0 = some acc →
      ∃ po ro ao,
        lastDynTagVal is32 f base 2 0 k none = some po ∧
        lastDynTagVal is32 f base 18 0 k none = some ro ∧
        lastDynTagVal is32 f base 8 0 k none = some ao ∧
        acc.relplt_size =
          (match po with
           | some v => v / relSize is32
           | none => acc0.relplt_size) ∧
        acc.reldyn_size =
          (match ro with
           | some v => v / relSize is32
           | none => acc0.reldyn_size) ∧
        acc.reladyn_size =
          (match ao with
           | some v => v / relaSize is32
           | none => acc0.reladyn_size))
    ∧ (∀ (is32 : Bool) (f : List Nat) (info0 info : ElfInfo) (isLoaded : Bool),
        info0.use_rela = false → info0.relplt_size = 0 → info0.reldyn_size = 0 →
        info0.reladyn_size = 0 →
        initElfInfo is32 f info0 isLoaded = some info →
        ∃ (base k : Nat) (acc : DynAcc),
          dynWalk is32 f base 0 k {} = some acc ∧
          info.relplt_size = acc.relplt_size ∧
          info.reldyn_size = acc.reldyn_size ∧
          info.reladyn_size = acc.reladyn_size ∧
          info.use_rela = acc.use_rela) := by
  constructor
  · intro is32 f base k acc0 acc h
    obtain ⟨po, ro, ao, e2, e18, e8, c1, c2, c3, c4, c5, c6⟩ :=
      dynWalk_sizes is32 f base k 0 acc0 acc none none none h
        (fun v hv => by cases hv) (fun v hv => by cases hv) (fun v hv => by cases hv)
    refine ⟨po, ro, ao, e2, e18, e8, ?_, ?_, ?_⟩
    · cases po with
      | none => simpa using c2 rfl
      | some v => simpa using c1 v rfl
    · cases ro with
      | none => simpa using c4 rfl
      | some v => simpa using c3 v rfl
    · cases ao with
      | none => simpa using c6 rfl
      | some v => simpa using c5 v rfl
  · intro is32 f info0 info isLoaded hu hpz hrz haz h
    exact initElfInfo_counts is32 f info0 info isLoaded hu hpz hrz haz h

/-- Claim C5 amended, witnessed on the concrete image `imgPltrelsz`: its
dynamic walk yields `use_rela = true` and `relplt_size = 24 / 8 = 3`, and
`InitElfInfo` stores those values. -/
theorem dynCounts_amended_witness :
    (∃ po ro ao,
      lastDynTagVal true imgPltrelsz 96 2 0 2 none = some po ∧
      lastDynTagVal true imgPltrelsz 96 18 0 2 none = some ro ∧
      lastDynTagVal true imgPltrelsz 96 8 0 2 none = some ao ∧
      accPltrelsz.relplt_size =
        (match po with
         | some v => v / relSize true
         | none => ({} : DynAcc).relplt_size) ∧
      accPltrelsz.reldyn_size =
        (match ro with
         | some v => v / relSize true
         | none => ({} : DynAcc).reldyn_size) ∧
      accPltrelsz.reladyn_size =
        (match ao with
         | some v => v / relaSize true
         | none => ({} : DynAcc).reladyn_size))
    ∧ (∃ (base k : Nat) (acc : DynAcc),
        dynWalk true imgPltrelsz base 0 k {} = some acc ∧
        infoPltrelsz.relplt_size = acc.relplt_size ∧
        infoPltrelsz.reldyn_size = acc.reldyn_size ∧
        infoPltrelsz.reladyn_size = acc.reladyn_size ∧
        infoPltrelsz.use_rela = acc.use_rela) :=
  ⟨dynCounts_amended.1 true imgPltrelsz 96 2 {} accPltrelsz (by decide),
   dynCounts_amended.2 true imgPltrelsz { elfKind := 1 } infoPltrelsz false rfl rfl rfl rfl
     (by decide)⟩

/-- Claim C4 (counterexample): the code's GNU hash of `printf` is
`0x156B2BB8`, not the `0x156B0099` the specification states. -/
theorem elfGnuHash_printf_refutes_stated_value :
    elfGnuHash (strBytes "printf") ≠ 0x156B0099 ∧
    elfGnuHash (strBytes "printf") = 0x156B2BB8 := by
  constructor <;> decide

/-- Claim C4 (amended): both hash functions are bit-exact 32-bit folds over
the raw name bytes with the stated per-byte steps; concretely
`elf_sysv_hash "printf" = 0x077905A6` and `elf_gnu_hash "printf" = 0x156B2BB8`
(the spec's `0x156B0099` is wrong), and the empty string hashes to 0 and 5381
respectively. -/
theorem hash_functions_bitexact :
    elfSysvHash (strBytes "printf") = 0x077905A6 ∧
    elfGnuHash (strBytes "printf") = 0x156B2BB8 ∧
    elfSysvHash [] = 0 ∧ elfGnuHash [] = 5381 ∧
    (∀ bs c, elfSysvHash (bs ++ [c]) =
      ((elfSysvHash bs * 16 + c) % 2 ^ 32 ^^^ ((elfSysvHash bs * 16 + c) % 2 ^ 32 &&& 0xf0000000))
        ^^^ (((elfSysvHash bs * 16 + c) % 2 ^ 32 &&& 0xf0000000) >>> 24)) ∧
    (∀ bs c, elfGnuHash (bs ++ [c]) = (elfGnuHash bs + elfGnuHash bs * 32 + c) % 2 ^ 32) := by
  refine ⟨by decide, by decide, by decide, by decide, ?_, ?_⟩
  · intro bs c
    unfold elfSysvHash
    rw [List.foldl_append]
    rfl
  · intro bs c
    unfold elfGnuHash
    rw [List.foldl_append]
    rfl

/-- Claim C3 (counterexample): a 64-byte range with a correct ELF magic whose
class byte is 3 attaches to a view that stores the raw class value 3 (not
`None`) and reports `IsValid() = true`. -/
theorem attach_unknownClass_sets_raw_kind :
    (attachFileMemMapping noDec img3).map (fun st => (kindOf st, isValid st)) =
      some (3, true) := by decide

/-- Claim C3 (amended): on an attached range of at least 64 bytes beginning
with the ELF magic whose byte 4 is neither 1 nor 2, attach stores the raw
byte as the class (skipping class-specific parsing), and the view is invalid
exactly when that byte is 0 (`kNone`); any other value makes `IsValid()`
return true. -/
theorem attach_unknownClass_amended (dec : List Nat → Option (List Nat)) (f : List Nat)
    (h64 : 64 ≤ f.length) (hm : checkElfMagic f = true)
    (h1 : f.getD 4 0 ≠ 1) (h2 : f.getD 4 0 ≠ 2) :
    attachFileMemMapping dec f =
      some { mMemory := f, mElfInfo := some { elfKind := f.getD 4 0 }, mIsLoaded := false }
    ∧ attachLoadedMemoryView f =
      some { mMemory := f, mElfInfo := some { elfKind := f.getD 4 0 }, mIsLoaded := true }
    ∧ (isValid { mMemory := f, mElfInfo := some { elfKind := f.getD 4 0 }, mIsLoaded := false }
        = true ↔ f.getD 4 0 ≠ 0) := by
  have hlen : ¬ f.length < 64 := by omega
  have hne : f.isEmpty = false := by
    cases f with
    | nil => simp at h64
    | cons a t => rfl
  rw [List.getD_eq_getElem?_getD] at h1 h2
  refine ⟨?_, ?_, ?_⟩
  · unfold attachFileMemMapping
    simp [hlen, hm, h1, h2, List.getD_eq_getElem?_getD]
  · unfold attachLoadedMemoryView
    simp [hlen, hm, h1, h2, List.getD_eq_getElem?_getD]
  · simp [isValid, hne]

/-- Claim C3 amended, witnessed at the concrete range `img3`. -/
theorem attach_unknownClass_amended_witness :
    attachFileMemMapping noDec img3 =
      some { mMemory := img3, mElfInfo := some { elfKind := img3.getD 4 0 }, mIsLoaded := false }
    ∧ attachLoadedMemoryView img3 =
      some { mMemory := img3, mElfInfo := some { elfKind := img3.getD 4 0 }, mIsLoaded := true }
    ∧ (isValid { mMemory := img3, mElfInfo := some { elfKind := img3.getD 4 0 }, mIsLoaded := false }
        = true ↔ img3.getD 4 0 ≠ 0) :=
  attach_unknownClass_amended noDec img3 (by decide) (by decide) (by decide) (by decide)

/-- Claim C7 (counterexample): the view attached from `img3` is valid but
`GetPointerSize()` returns 0, so membership in 4 or 8 is not equivalent to
validity. -/
theorem pointerSize_zero_on_valid_unknown_class :
    (attachFileMemMapping noDec img3).map (fun st => (isValid st, getPointerSize st)) =
      some (true, 0) := by decide

/-- Claim C7 (amended): `GetPointerSize()` is 4 or 8 exactly when the view is
valid and its stored class is `kElf32` or `kElf64`; every invalid view gets 0,
and so does a valid view whose raw class byte is unrecognised. -/
theorem pointerSize_amended (v : ViewState) :
    ((getPointerSize v = 4 ∨ getPointerSize v = 8) ↔
      (isValid v = true ∧ (kindOf v = 1 ∨ kindOf v = 2)))
    ∧ (isValid v = false → getPointerSize v = 0) := by
  obtain ⟨mem, oinfo, ld⟩ := v
  cases oinfo with
  | none => simp [getPointerSize, isValid, kindOf]
  | some info =>
    by_cases hm : mem.isEmpty <;> by_cases h1 : info.elfKind = 1 <;>
      by_cases h2 : info.elfKind = 2 <;>
      simp [getPointerSize, isValid, kindOf, hm, h1, h2]

/-- Claim C7 amended, witnessed on the detached view. -/
theorem pointerSize_amended_witness :
    ((getPointerSize (detach elfViewNew) = 4 ∨ getPointerSize (detach elfViewNew) = 8) ↔
      (isValid (detach elfViewNew) = true ∧
        (kindOf (detach elfViewNew) = 1 ∨ kindOf (detach elfViewNew) = 2)))
    ∧ (isValid (detach elfViewNew) = false → getPointerSize (detach elfViewNew) = 0) :=
  pointerSize_amended (detach elfViewNew)

/-- Claim C6 (counterexample): after `Detach`, `GetLoadBias` does not return
the sentinel 0 - it dereferences the released descriptor (undefined
behaviour, `none` in the model). -/
theorem detach_getLoadBias_not_sentinel :
    getLoadBias (detach elfViewNew) = none ∧ getLoadBias (detach elfViewNew) ≠ some 0 := by
  constructor <;> decide

/-- Claim C6 (amended): after `Detach`, the queries that consult `IsValid`
first (`IsValid`, `GetPointerSize`, `GetArchitecture`,
`GetFirstSymbolOffsetWithPrefix`, `GetSymbolGotOffset`) return their miss
sentinels, as does `GetSymbolOffset` on the empty name; but `GetLoadBias`,
`GetLoadedSize`, `GetSoname` and `GetSymbolOffset` on a non-empty name
dereference the released descriptor - undefined behaviour, not a sentinel. -/
theorem detach_queries_amended (v : ViewState) (pfx s : List Nat) :
    isValid (detach v) = false
    ∧ getPointerSize (detach v) = 0
    ∧ getArchitecture (detach v) = 0
    ∧ getFirstSymbolOffsetWithPfx (detach v) pfx = some 0
    ∧ getSymbolGotOffset (detach v) s = some []
    ∧ getLoadBias (detach v) = none
    ∧ getLoadedSize (detach v) = none
    ∧ getSoname (detach v) = none
    ∧ getSymbolOffset (detach v) s = (if s = [] then some 0 else none) := by
  refine ⟨rfl, rfl, rfl, ?_, ?_, rfl, rfl, rfl, ?_⟩
  · simp [getFirstSymbolOffsetWithPfx, getFirstSymbolOffsetWithPfxR, detach, isValid]
  · by_cases hs : s = [] <;> simp [getSymbolGotOffset, detach, isValid, hs]
  · by_cases hs : s = [] <;> simp [getSymbolOffset, getSymbolOffsetR, detach, hs]

/-- Claim C6 amended, witnessed on a fresh view with concrete names. -/
theorem detach_queries_amended_witness :
    isValid (detach elfViewNew) = false
    ∧ getPointerSize (detach elfViewNew) = 0
    ∧ getArchitecture (detach elfViewNew) = 0
    ∧ getFirstSymbolOffsetWithPfx (detach elfViewNew) (strBytes "f") = some 0
    ∧ getSymbolGotOffset (detach elfViewNew) (strBytes "m") = some []
    ∧ getLoadBias (detach elfViewNew) = none
    ∧ getLoadedSize (detach elfViewNew) = none
    ∧ getSoname (detach elfViewNew) = none
    ∧ getSymbolOffset (detach elfViewNew) (strBytes "m") =
        (if strBytes "m" = [] then some 0 else none) :=
  detach_queries_amended elfViewNew (strBytes "f") (strBytes "m")

/-- Claim C9: a freshly constructed view, and any view attached (file-form or
loaded-form) from a range failing structural validation (null/short data or a
wrong magic), keeps the default descriptor, so `GetLoadBias`, `GetLoadedSize`,
`GetSoname`, `GetSymbolOffset` and `GetSymbolGotOffset` all return their miss
sentinels for every name - without any of them consulting `IsValid`. -/
theorem failed_attach_default_descriptor :
    (∀ s, getLoadBias elfViewNew = some 0 ∧ getLoadedSize elfViewNew = some 0
      ∧ getSoname elfViewNew = some []
      ∧ getSymbolOffset elfViewNew s = some 0
      ∧ getSymbolGotOffset elfViewNew s = some [])
    ∧ (∀ (dec : List Nat → Option (List Nat)) (f : List Nat),
        f.length < 64 ∨ checkElfMagic f = false →
        attachFileMemMapping dec f =
          some { mMemory := f, mElfInfo := some {}, mIsLoaded := false }
        ∧ ∀ s, getLoadBias { mMemory := f, mElfInfo := some ({} : ElfInfo), mIsLoaded := false } = some 0
          ∧ getLoadedSize { mMemory := f, mElfInfo := some ({} : ElfInfo), mIsLoaded := false } = some 0
          ∧ getSoname { mMemory := f, mElfInfo := some ({} : ElfInfo), mIsLoaded := false } = some []
          ∧ getSymbolOffset { mMemory := f, mElfInfo := some ({} : ElfInfo), mIsLoaded := false } s = some 0
          ∧ getSymbolGotOffset { mMemory := f, mElfInfo := some ({} : ElfInfo), mIsLoaded := false } s = some [])
    ∧ (∀ f : List Nat, f.length < 64 ∨ checkElfMagic f = false →
        attachLoadedMemoryView f =
          some { mMemory := f, mElfInfo := some {}, mIsLoaded := true }
        ∧ ∀ s, getSymbolOffset { mMemory := f, mElfInfo := some ({} : ElfInfo), mIsLoaded := true } s = some 0
          ∧ getSymbolGotOffset { mMemory := f, mElfInfo := some ({} : ElfInfo), mIsLoaded := true } s = some []) := by
  refine ⟨?_, ?_, ?_⟩
  · intro s
    have h := defaultDescriptor_query_misses elfViewNew rfl s
    exact ⟨rfl, rfl, rfl, h.1, h.2⟩
  · intro dec f hf
    have hcase : f.length < 64 ∨ checkElfMagic f = false := hf
    constructor
    · unfold attachFileMemMapping
      rcases hcase with h | h
      · simp [h]
      · by_cases h64 : f.length < 64 <;> simp [h, h64]
    · intro s
      have h := defaultDescriptor_query_misses
        { mMemory := f, mElfInfo := some {}, mIsLoaded := false } rfl s
      exact ⟨rfl, rfl, rfl, h.1, h.2⟩
  · intro f hf
    constructor
    · unfold attachLoadedMemoryView
      rcases hf with h | h
      · simp [h]
      · by_cases h64 : f.length < 64 <;> simp [h, h64]
    · intro s
      have h := defaultDescriptor_query_misses
        { mMemory := f, mElfInfo := some {}, mIsLoaded := true } rfl s
      exact ⟨h.1, h.2⟩

/-- Claim C1: on any view with a live descriptor, `GetSymbolOffset` returns
the resolved symbol's raw `st_value` minus the view's `loadBias` (wrapping
64-bit subtraction) whenever the name resolves through the dynamic lookup,
the symtab scan, or the compressed debug-symbol map - in that order - and
returns 0 for the empty name or when all three miss. -/
theorem getSymbolOffset_resolution (v : ViewState) (info : ElfInfo) (s : List Nat)
    (hinfo : v.mElfInfo = some info) :
    (s = [] → getSymbolOffset v s = some 0)
    ∧ (∀ i sym, s ≠ [] → dynStage v.mMemory info s = DynRes.found i sym →
        getSymbolOffset v s = some (sub64 sym.st_value info.loadBias))
    ∧ (∀ sym, s ≠ [] → dynStage v.mMemory info s = DynRes.miss →
        symtabStage v.mMemory info s = some (some sym) →
        getSymbolOffset v s = some (sub64 sym.st_value info.loadBias))
    ∧ (∀ val, s ≠ [] → dynStage v.mMemory info s = DynRes.miss →
        symtabStage v.mMemory info s = some none →
        listLookup info.compressedDebugSymbols s = some val →
        getSymbolOffset v s = some (sub64 val info.loadBias))
    ∧ (s ≠ [] → dynStage v.mMemory info s = DynRes.miss →
        symtabStage v.mMemory info s = some none →
        listLookup info.compressedDebugSymbols s = none →
        getSymbolOffset v s = some 0) := by
  refine ⟨?_, ?_, ?_, ?_, ?_⟩
  · intro hs
    simp [getSymbolOffset, getSymbolOffsetR, hs]
  · intro i sym hs hdyn
    simp [getSymbolOffset, getSymbolOffsetR, hs, hinfo, hdyn]
  · intro sym hs hdyn hsym
    simp [getSymbolOffset, getSymbolOffsetR, hs, hinfo, hdyn, hsym]
  · intro val hs hdyn hsym hmap
    simp [getSymbolOffset, getSymbolOffsetR, hs, hinfo, hdyn, hsym, hmap]
  · intro hs hdyn hsym hmap
    simp [getSymbolOffset, getSymbolOffsetR, hs, hinfo, hdyn, hsym, hmap]

/-- Claim C1, witnessed on the concrete view `vG` and the name `m`. -/
theorem getSymbolOffset_resolution_witness :
    (strBytes "m" = [] → getSymbolOffset vG (strBytes "m") = some 0)
    ∧ (∀ i sym, strBytes "m" ≠ [] →
        dynStage vG.mMemory infoG (strBytes "m") = DynRes.found i sym →
        getSymbolOffset vG (strBytes "m") = some (sub64 sym.st_value infoG.loadBias))
    ∧ (∀ sym, strBytes "m" ≠ [] →
        dynStage vG.mMemory infoG (strBytes "m") = DynRes.miss →
        symtabStage vG.mMemory infoG (strBytes "m") = some (some sym) →
        getSymbolOffset vG (strBytes "m") = some (sub64 sym.st_value infoG.loadBias))
    ∧ (∀ val, strBytes "m" ≠ [] →
        dynStage vG.mMemory infoG (strBytes "m") = DynRes.miss →
        symtabStage vG.mMemory infoG (strBytes "m") = some none →
        listLookup infoG.compressedDebugSymbols (strBytes "m") = some val →
        getSymbolOffset vG (strBytes "m") = some (sub64 val infoG.loadBias))
    ∧ (strBytes "m" ≠ [] →
        dynStage vG.mMemory infoG (strBytes "m") = DynRes.miss →
        symtabStage vG.mMemory infoG (strBytes "m") = some none →
        listLookup infoG.compressedDebugSymbols (strBytes "m") = none →
        getSymbolOffset vG (strBytes "m") = some 0) :=
  getSymbolOffset_resolution vG infoG (strBytes "m") rfl

/-- Claim C9, witnessed on a 3-byte range and the name `x`. -/
theorem failed_attach_default_descriptor_witness :
    attachFileMemMapping noDec [1, 2, 3] =
      some { mMemory := [1, 2, 3], mElfInfo := some {}, mIsLoaded := false }
    ∧ getSymbolOffset { mMemory := [1, 2, 3], mElfInfo := some ({} : ElfInfo), mIsLoaded := false }
        (strBytes "x") = some 0
    ∧ getSymbolGotOffset { mMemory := [1, 2, 3], mElfInfo := some ({} : ElfInfo), mIsLoaded := false }
        (strBytes "x") = some [] := by
  have h := failed_attach_default_descriptor.2.1 noDec [1, 2, 3] (by decide)
  exact ⟨h.1, (h.2 (strBytes "x")).2.2.2.1, (h.2 (strBytes "x")).2.2.2.2⟩

end ElfView

namespace ElfView

/-- Shared helper: a `relplt` scan that misses read every record and none of
them was a matching jump slot. -/
theorem pltScanAux_none_char (is32 : Bool) (f : List Nat) (base : Option Nat)
    (stride symidx bias : Nat) :
    ∀ (k i : Nat), pltScanAux is32 f base stride symidx bias i k = some none →
      ∀ d, d < k → ∃ r, readRelAt is32 f base stride (i + d) = some r ∧
        jumpMatch is32 symidx r = false := by
  intro k
  induction k with
  | zero => intro i h d hd; omega
  | succ k ih =>
    intro i h d hd
    rw [pltScanAux] at h
    cases hr : readRelAt is32 f base stride i with
    | none => simp [hr] at h
    | some r =>
      simp only [hr] at h
      by_cases hm : jumpMatch is32 symidx r = true
      · rw [if_pos hm] at h
        cases h
      · rw [if_neg hm] at h
        cases d with
        | zero => exact ⟨r, hr, by simpa using hm⟩
        | succ d =>
          have h2 := ih (i + 1) h d (by omega)
          rwa [show i + 1 + d = i + (d + 1) by omega] at h2

/-- Shared helper: a `relplt` scan that returns a value found the first
matching jump slot: every earlier record was read and did not match. -/
theorem pltScanAux_some_char (is32 : Bool) (f : List Nat) (base : Option Nat)
    (stride symidx bias : Nat) :
    ∀ (k i : Nat) (x : Nat), pltScanAux is32 f base stride symidx bias i k = some (some x) →
      ∃ d r, d < k ∧ readRelAt is32 f base stride (i + d) = some r ∧
        jumpMatch is32 symidx r = true ∧ x = sub64 r.r_offset bias ∧
        ∀ e, e < d → ∃ r2, readRelAt is32 f base stride (i + e) = some r2 ∧
          jumpMatch is32 symidx r2 = false := by
  intro k
  induction k with
  | zero => intro i x h; rw [pltScanAux] at h; cases h
  | succ k ih =>
    intro i x h
    rw [pltScanAux] at h
    cases hr : readRelAt is32 f base stride i with
    | none => simp [hr] at h
    | some r =>
      simp only [hr] at h
      by_cases hm : jumpMatch is32 symidx r = true
      · rw [if_pos hm] at h
        cases h
        exact ⟨0, r, by omega, by simpa using hr, hm, rfl, fun e he => by omega⟩
      · rw [if_neg hm] at h
        obtain ⟨d, r0, hdk, hrd, hmd, hx, hfst⟩ := ih (i + 1) x h
        refine ⟨d + 1, r0, by omega, ?_, hmd, hx, ?_⟩
        · rwa [show i + (d + 1) = i + 1 + d by omega]
        · intro e he
          cases e with
          | zero => exact ⟨r, by simpa using hr, by simpa using hm⟩
          | succ e =>
            have h2 := hfst e (by omega)
            rwa [show i + 1 + e = i + (e + 1) by omega] at h2

/-- Shared helper: a completed data-relocation scan collects exactly the
matching records' biased offsets, in table order. -/
theorem dataScanAux_char (is32 : Bool) (f : List Nat) (base : Option Nat)
    (stride symidx bias : Nat) :
    ∀ (k i : Nat) (l : List Nat), dataScanAux is32 f base stride symidx bias i k = some l →
      l = (List.range k).filterMap
        (fun d => dataRelValue is32 f base stride symidx bias (i + d)) := by
  intro k
  induction k with
  | zero =>
    intro i l h
    rw [dataScanAux] at h
    cases h
    rfl
  | succ k ih =>
    intro i l h
    rw [dataScanAux] at h
    cases hr : readRelAt is32 f base stride i with
    | none => simp [hr] at h
    | some r =>
      simp only [hr] at h
      have h1 : ((fun d => dataRelValue is32 f base stride symidx bias (i + d)) ∘ Nat.succ) =
          (fun d => dataRelValue is32 f base stride symidx bias (i + 1 + d)) := by
        funext d
        simp only [Function.comp_apply]
        rw [show i + Nat.succ d = i + 1 + d by omega]
      by_cases hm : dataMatch is32 symidx r = true
      · rw [if_pos hm] at h
        cases hrest : dataScanAux is32 f base stride symidx bias (i + 1) k with
        | none => simp [hrest] at h
        | some l2 =>
          simp only [hrest] at h
          cases h
          have hv : dataRelValue is32 f base stride symidx bias (i + 0) =
              some (sub64 r.r_offset bias) := by
            simp [dataRelValue, hr, hm]
          rw [List.range_succ_eq_map, List.filterMap_cons, List.filterMap_map, h1]
          simp only [hv]
          rw [ih (i + 1) l2 hrest]
      · rw [if_neg hm] at h
        have hv : dataRelValue is32 f base stride symidx bias (i + 0) = none := by
          simp [dataRelValue, hr, hm]
        rw [ih (i + 1) l h, List.range_succ_eq_map, List.filterMap_cons,
          List.filterMap_map, h1]
        simp only [hv]

end ElfView

namespace ElfView

/-- Shared helper: a byte read inside the range succeeds. -/
theorem readU8_total (f : List Nat) (p : Nat) (h : p < f.length) :
    ∃ b, readU8 f p = some b := by
  rcases List.get?_eq_get h with hg
  exact ⟨f.get ⟨p, h⟩, hg⟩

/-- Shared helper: a 32-bit read whose four bytes are inside the range
succeeds. -/
theorem readU32_total (f : List Nat) (p : Nat) (h : p + 4 ≤ f.length) :
    ∃ x, readU32 f p = some x := by
  obtain ⟨b0, h0⟩ := readU8_total f p (by omega)
  obtain ⟨b1, h1⟩ := readU8_total f (p + 1) (by omega)
  obtain ⟨b2, h2⟩ := readU8_total f (p + 2) (by omega)
  obtain ⟨b3, h3⟩ := readU8_total f (p + 3) (by omega)
  exact ⟨b0 + 256 * b1 + 65536 * b2 + 16777216 * b3,
    by simp [readU32, readU8] at *; simp [h0, h1, h2, h3]⟩

/-- Shared helper: a 64-bit read whose eight bytes are inside the range
succeeds. -/
theorem readU64_total (f : List Nat) (p : Nat) (h : p + 8 ≤ f.length) :
    ∃ x, readU64 f p = some x := by
  obtain ⟨lo, hlo⟩ := readU32_total f p (by omega)
  obtain ⟨hi, hhi⟩ := readU32_total f (p + 4) (by omega)
  exact ⟨lo + 4294967296 * hi, by simp [readU64, hlo, hhi]⟩

/-- Shared helper: a relocation record wholly inside the range reads
successfully. -/
theorem readRel_total (is32 : Bool) (f : List Nat) (p : Nat)
    (h : p + (if is32 then 8 else 16) ≤ f.length) :
    ∃ r, readRel is32 f p = some r := by
  cases is32 with
  | true =>
    have h8 : p + 8 ≤ f.length := by simpa using h
    obtain ⟨o, ho⟩ := readU32_total f p (by omega)
    obtain ⟨x, hx⟩ := readU32_total f (p + 4) (by omega)
    exact ⟨⟨o, x⟩, by simp [readRel, readUW, ho, hx]⟩
  | false =>
    have h16 : p + 16 ≤ f.length := by simpa using h
    obtain ⟨o, ho⟩ := readU64_total f p (by omega)
    obtain ⟨x, hx⟩ := readU64_total f (p + 8) (by omega)
    exact ⟨⟨o, x⟩, by simp [readRel, readUW, ho, hx]⟩

/-- Shared helper: the record size never exceeds the stride picked for the
table. -/
theorem relStride_ge (is32 rela : Bool) :
    (if is32 then 8 else 16) ≤ relStride is32 rela := by
  cases is32 <;> cases rela <;> simp [relStride]

/-- Shared helper: the `relplt` scan completes when the table's records lie
inside the range (or the count is zero). -/
theorem pltScanAux_total (is32 : Bool) (f : List Nat) (base : Option Nat)
    (stride symidx bias : Nat) (hst : (if is32 then 8 else 16) ≤ stride) :
    ∀ (k i : Nat),
      (k = 0 ∨ ∃ b, base = some b ∧ b + (i + k) * stride ≤ f.length) →
      ∃ o, pltScanAux is32 f base stride symidx bias i k = some o := by
  intro k
  induction k with
  | zero => intro i _; exact ⟨none, by rw [pltScanAux]⟩
  | succ k ih =>
    intro i hb
    rcases hb with h0 | ⟨b, hbase, hlen⟩
    · omega
    · have hrec : b + i * stride + (if is32 then 8 else 16) ≤ f.length := by
        have h1 : i * stride + stride ≤ (i + (k + 1)) * stride := by
          have h2 := Nat.mul_le_mul_right stride (show i + 1 ≤ i + (k + 1) by omega)
          calc i * stride + stride = (i + 1) * stride := by ring
            _ ≤ (i + (k + 1)) * stride := h2
        omega
      obtain ⟨r, hr⟩ := readRel_total is32 f (b + i * stride) hrec
      have hra : readRelAt is32 f base stride i = some r := by
        rw [hbase]
        simpa [readRelAt] using hr
      by_cases hm : jumpMatch is32 symidx r = true
      · exact ⟨some (sub64 r.r_offset bias), by rw [pltScanAux]; simp only [hra]; rw [if_pos hm]⟩
      · obtain ⟨o, ho⟩ := ih (i + 1)
          (Or.inr ⟨b, hbase, by rwa [show i + 1 + k = i + (k + 1) by omega]⟩)
        exact ⟨o, by rw [pltScanAux]; simp only [hra]; rw [if_neg hm]; exact ho⟩

/-- Shared helper: the data-relocation scan completes when the table's
records lie inside the range (or the count is zero). -/
theorem dataScanAux_total (is32 : Bool) (f : List Nat) (base : Option Nat)
    (stride symidx bias : Nat) (hst : (if is32 then 8 else 16) ≤ stride) :
    ∀ (k i : Nat),
      (k = 0 ∨ ∃ b, base = some b ∧ b + (i + k) * stride ≤ f.length) →
      ∃ l, dataScanAux is32 f base stride symidx bias i k = some l := by
  intro k
  induction k with
  | zero => intro i _; exact ⟨[], by rw [dataScanAux]⟩
  | succ k ih =>
    intro i hb
    rcases hb with h0 | ⟨b, hbase, hlen⟩
    · omega
    · have hrec : b + i * stride + (if is32 then 8 else 16) ≤ f.length := by
        have h1 : i * stride + stride ≤ (i + (k + 1)) * stride := by
          have h2 := Nat.mul_le_mul_right stride (show i + 1 ≤ i + (k + 1) by omega)
          calc i * stride + stride = (i + 1) * stride := by ring
            _ ≤ (i + (k + 1)) * stride := h2
        omega
      obtain ⟨r, hr⟩ := readRel_total is32 f (b + i * stride) hrec
      have hra : readRelAt is32 f base stride i = some r := by
        rw [hbase]
        simpa [readRelAt] using hr
      obtain ⟨l, hl⟩ := ih (i + 1)
        (Or.inr ⟨b, hbase, by rwa [show i + 1 + k = i + (k + 1) by omega]⟩)
      by_cases hm : dataMatch is32 symidx r = true
      · exact ⟨sub64 r.r_offset bias :: l,
          by rw [dataScanAux]; simp only [hra]; rw [if_pos hm, hl]; rfl⟩
      · exact ⟨l, by rw [dataScanAux]; simp only [hra]; rw [if_neg hm]; exact hl⟩

end ElfView

namespace ElfView

/-- Claim C2: on a valid view, `GetSymbolGotOffset` of a name with a dynsym
index returns each matching relocation's `r_offset` minus `loadBias`: at most
one jump-slot entry first (the `relplt` scan stops at the first match, having
read and rejected every earlier record), followed by all matching data
relocations in table order; the first jump-slot relocation's biased offset is
always an element of the result; an empty name or a name without a dynsym
index yields the empty sequence. -/
theorem getSymbolGotOffset_characterisation (v : ViewState) (info : ElfInfo) (s : List Nat)
    (hinfo : v.mElfInfo = some info) (hvalid : isValid v = true) :
    (s = [] → getSymbolGotOffset v s = some [])
    ∧ (s ≠ [] → dynIdxStage v.mMemory info s = some none → getSymbolGotOffset v s = some [])
    ∧ (∀ symidx l, s ≠ [] → dynIdxStage v.mMemory info s = some (some symidx) →
        getSymbolGotOffset v s = some l →
        ∃ plt : Option Nat,
          l = plt.toList ++ (List.range (gotDataCount info)).filterMap
              (fun d => dataRelValue (gotIs32 info) v.mMemory (gotDataBase info)
                (gotStride info) symidx info.loadBias d)
          ∧ plt.toList.length ≤ 1
          ∧ (∀ x, plt = some x →
              ∃ d r, d < info.relplt_size ∧
                readRelAt (gotIs32 info) v.mMemory info.relplt (gotStride info) d = some r ∧
                jumpMatch (gotIs32 info) symidx r = true ∧
                x = sub64 r.r_offset info.loadBias ∧
                ∀ e, e < d →
                  ∃ r2, readRelAt (gotIs32 info) v.mMemory info.relplt (gotStride info) e
                      = some r2 ∧ jumpMatch (gotIs32 info) symidx r2 = false)
          ∧ (plt = none → ∀ d, d < info.relplt_size →
              ∃ r, readRelAt (gotIs32 info) v.mMemory info.relplt (gotStride info) d = some r ∧
                jumpMatch (gotIs32 info) symidx r = false)
          ∧ (∀ d r, d < info.relplt_size →
              readRelAt (gotIs32 info) v.mMemory info.relplt (gotStride info) d = some r →
              jumpMatch (gotIs32 info) symidx r = true →
              (∀ e, e < d → ∃ r2,
                readRelAt (gotIs32 info) v.mMemory info.relplt (gotStride info) e = some r2 ∧
                jumpMatch (gotIs32 info) symidx r2 = false) →
              sub64 r.r_offset info.loadBias ∈ l)) := by
  refine ⟨?_, ?_, ?_⟩
  · intro hs
    simp [getSymbolGotOffset, hs]
  · intro hs hidx
    simp [getSymbolGotOffset, hs, hvalid, hinfo, hidx]
  · intro symidx l hs hidx hgot
    simp only [getSymbolGotOffset, hs, hvalid, hinfo, hidx, Bool.true_eq_false,
      if_false, ite_false] at hgot
    cases hplt : pltScanAux (gotIs32 info) v.mMemory info.relplt (gotStride info)
        symidx info.loadBias 0 info.relplt_size with
    | none => rw [hplt] at hgot; cases hgot
    | some plt =>
      rw [hplt] at hgot
      cases hdata : dataScanAux (gotIs32 info) v.mMemory (gotDataBase info) (gotStride info)
          symidx info.loadBias 0 (gotDataCount info) with
      | none => rw [hdata] at hgot; cases hgot
      | some data =>
        rw [hdata] at hgot
        cases hgot
        refine ⟨plt, ?_, ?_, ?_, ?_, ?_⟩
        · have hd := dataScanAux_char (gotIs32 info) v.mMemory (gotDataBase info)
            (gotStride info) symidx info.loadBias (gotDataCount info) 0 data hdata
          simp only [Nat.zero_add] at hd
          rw [hd]
        · cases plt <;> simp
        · intro x hx
          rw [hx] at hplt
          obtain ⟨d, r, hdk, hrd, hm, hxv, hfst⟩ := pltScanAux_some_char (gotIs32 info)
            v.mMemory info.relplt (gotStride info) symidx info.loadBias
            info.relplt_size 0 x hplt
          simp only [Nat.zero_add] at hrd hfst
          exact ⟨d, r, hdk, hrd, hm, hxv, hfst⟩
        · intro hn d hd
          rw [hn] at hplt
          have hall := pltScanAux_none_char (gotIs32 info) v.mMemory info.relplt
            (gotStride info) symidx info.loadBias info.relplt_size 0 hplt d hd
          simpa using hall
        · intro d r hd hrd hm hfst
          cases plt with
          | none =>
            obtain ⟨r2, hr2, hm2⟩ := pltScanAux_none_char (gotIs32 info) v.mMemory
              info.relplt (gotStride info) symidx info.loadBias
              info.relplt_size 0 hplt d hd
            simp only [Nat.zero_add] at hr2
            rw [hrd] at hr2
            cases hr2
            rw [hm] at hm2
            cases hm2
          | some x =>
            obtain ⟨d0, r0, hd0k, hrd0, hm0, hxv, hfst0⟩ := pltScanAux_some_char
              (gotIs32 info) v.mMemory info.relplt (gotStride info) symidx
              info.loadBias info.relplt_size 0 x hplt
            simp only [Nat.zero_add] at hrd0 hfst0
            have hdd : d0 = d := by
              by_contra hne
              rcases Nat.lt_or_ge d0 d with hlt | hge
              · obtain ⟨r2, hr2, hm2⟩ := hfst d0 hlt
                rw [hrd0] at hr2
                cases hr2
                rw [hm0] at hm2
                cases hm2
              · have hlt2 : d < d0 := by omega
                obtain ⟨r2, hr2, hm2⟩ := hfst0 d hlt2
                rw [hrd] at hr2
                cases hr2
                rw [hm] at hm2
                cases hm2
            subst hdd
            have hr0r : r0 = r := Option.some.inj (hrd0.symm.trans hrd)
            subst hr0r
            subst hxv
            simp

/-- Claim C2, witnessed on the concrete view `vG` with the imported name `m`. -/
theorem getSymbolGotOffset_characterisation_witness :
    (strBytes "m" = [] → getSymbolGotOffset vG (strBytes "m") = some [])
    ∧ (strBytes "m" ≠ [] → dynIdxStage vG.mMemory infoG (strBytes "m") = some none →
        getSymbolGotOffset vG (strBytes "m") = some [])
    ∧ (∀ symidx l, strBytes "m" ≠ [] →
        dynIdxStage vG.mMemory infoG (strBytes "m") = some (some symidx) →
        getSymbolGotOffset vG (strBytes "m") = some l →
        ∃ plt : Option Nat,
          l = plt.toList ++ (List.range (gotDataCount infoG)).filterMap
              (fun d => dataRelValue (gotIs32 infoG) vG.mMemory (gotDataBase infoG)
                (gotStride infoG) symidx infoG.loadBias d)
          ∧ plt.toList.length ≤ 1
          ∧ (∀ x, plt = some x →
              ∃ d r, d < infoG.relplt_size ∧
                readRelAt (gotIs32 infoG) vG.mMemory infoG.relplt (gotStride infoG) d = some r ∧
                jumpMatch (gotIs32 infoG) symidx r = true ∧
                x = sub64 r.r_offset infoG.loadBias ∧
                ∀ e, e < d →
                  ∃ r2, readRelAt (gotIs32 infoG) vG.mMemory infoG.relplt (gotStride infoG) e
                      = some r2 ∧ jumpMatch (gotIs32 infoG) symidx r2 = false)
          ∧ (plt = none → ∀ d, d < infoG.relplt_size →
              ∃ r, readRelAt (gotIs32 infoG) vG.mMemory infoG.relplt (gotStride infoG) d
                  = some r ∧ jumpMatch (gotIs32 infoG) symidx r = false)
          ∧ (∀ d r, d < infoG.relplt_size →
              readRelAt (gotIs32 infoG) vG.mMemory infoG.relplt (gotStride infoG) d = some r →
              jumpMatch (gotIs32 infoG) symidx r = true →
              (∀ e, e < d → ∃ r2,
                readRelAt (gotIs32 infoG) vG.mMemory infoG.relplt (gotStride infoG) e = some r2 ∧
                jumpMatch (gotIs32 infoG) symidx r2 = false) →
              sub64 r.r_offset infoG.loadBias ∈ l)) :=
  getSymbolGotOffset_characterisation vG infoG (strBytes "m") rfl (by decide)

/-- Claim C10: the GOT scan's reads are bounded only by the stored counts.
On a valid view whose name has a dynsym index: a null `relplt` base with a
nonzero stored count makes the scan read through the null pointer (a fault);
conversely, when every table with a nonzero count has a base and count times
stride many bytes inside the attached range, the scan completes. -/
theorem gotScan_bounds (v : ViewState) (info : ElfInfo) (s : List Nat) (symidx : Nat)
    (hinfo : v.mElfInfo = some info) (hvalid : isValid v = true) (hs : s ≠ [])
    (hidx : dynIdxStage v.mMemory info s = some (some symidx)) :
    (info.relplt = none → 0 < info.relplt_size → getSymbolGotOffset v s = none)
    ∧ ((info.relplt_size = 0 ∨ ∃ b, info.relplt = some b ∧
          b + info.relplt_size * gotStride info ≤ v.mMemory.length) →
       (gotDataCount info = 0 ∨ ∃ b, gotDataBase info = some b ∧
          b + gotDataCount info * gotStride info ≤ v.mMemory.length) →
       ∃ l, getSymbolGotOffset v s = some l) := by
  constructor
  · intro hnull hpos
    cases hc : info.relplt_size with
    | zero => omega
    | succ k =>
      have hscan : pltScanAux (gotIs32 info) v.mMemory info.relplt (gotStride info)
          symidx info.loadBias 0 (k + 1) = none := by
        rw [pltScanAux]
        simp [readRelAt, hnull]
      simp [getSymbolGotOffset, hs, hvalid, hinfo, hidx, hc, hscan]
  · intro hplt hdata
    have hst : (if gotIs32 info then 8 else 16) ≤ gotStride info :=
      relStride_ge (gotIs32 info) info.use_rela
    obtain ⟨o, ho⟩ := pltScanAux_total (gotIs32 info) v.mMemory info.relplt
      (gotStride info) symidx info.loadBias hst info.relplt_size 0 (by
        rcases hplt with h0 | ⟨b, hb, hl⟩
        · exact Or.inl h0
        · exact Or.inr ⟨b, hb, by rwa [show 0 + info.relplt_size = info.relplt_size by omega]⟩)
    obtain ⟨l2, hl2⟩ := dataScanAux_total (gotIs32 info) v.mMemory (gotDataBase info)
      (gotStride info) symidx info.loadBias hst (gotDataCount info) 0 (by
        rcases hdata with h0 | ⟨b, hb, hl⟩
        · exact Or.inl h0
        · exact Or.inr ⟨b, hb, by rwa [show 0 + gotDataCount info = gotDataCount info by omega]⟩)
    exact ⟨o.toList ++ l2, by simp [getSymbolGotOffset, hs, hvalid, hinfo, hidx, ho, hl2]⟩

/-- Claim C10, witnessed on the concrete view `vG` with the imported name `m`
(dynsym index 1). -/
theorem gotScan_bounds_witness :
    (infoG.relplt = none → 0 < infoG.relplt_size → getSymbolGotOffset vG (strBytes "m") = none)
    ∧ ((infoG.relplt_size = 0 ∨ ∃ b, infoG.relplt = some b ∧
          b + infoG.relplt_size * gotStride infoG ≤ vG.mMemory.length) →
       (gotDataCount infoG = 0 ∨ ∃ b, gotDataBase infoG = some b ∧
          b + gotDataCount infoG * gotStride infoG ≤ vG.mMemory.length) →
       ∃ l, getSymbolGotOffset vG (strBytes "m") = some l) :=
  gotScan_bounds vG infoG (strBytes "m") 1 rfl (by decide) (by decide) (by decide)

end ElfView

namespace ElfView

/-- Shared helper: if a bounded compare against `S` completed, the compare
against a byte prefix `P` of `S` also completes, and a full match of `S`
forces a match of `P`. -/
theorem strncmpEqZ_pfx (f : List Nat) :
    ∀ (P S : List Nat) (p : Nat) (b : Bool),
      strncmpEqZ f p S = some b → listIsPfx P S = true →
      ∃ b2, strncmpEqZ f p P = some b2 ∧ (b = true → b2 = true) := by
  intro P
  induction P with
  | nil =>
    intro S p b _ _
    exact ⟨true, rfl, fun _ => rfl⟩
  | cons c P ih =>
    intro S p b h hpfx
    cases S with
    | nil => simp [listIsPfx] at hpfx
    | cons cS S2 =>
      have hcc : c = cS ∧ listIsPfx P S2 = true := by
        simpa [listIsPfx, Bool.and_eq_true] using hpfx
      obtain ⟨rfl, hp2⟩ := hcc
      rw [strncmpEqZ] at h
      cases hga : f.get? p with
      | none =>
        simp only [hga] at h
        exact Option.noConfusion h
      | some a =>
        simp only [hga] at h
        by_cases ha : a = c
        · rw [if_pos ha] at h
          by_cases h0 : a = 0
          · rw [if_pos h0] at h
            cases h
            exact ⟨true, by simp only [strncmpEqZ, hga]; rw [if_pos ha, if_pos h0],
              fun _ => rfl⟩
          · rw [if_neg h0] at h
            obtain ⟨b2, hb2, himp⟩ := ih S2 (p + 1) b h hp2
            exact ⟨b2, by simp only [strncmpEqZ, hga]; rw [if_pos ha, if_neg h0]; exact hb2,
              himp⟩
        · rw [if_neg ha] at h
          cases h
          exact ⟨false, by simp only [strncmpEqZ, hga]; rw [if_neg ha], fun hc => nomatch hc⟩

/-- Shared helper: inversion of a successful C-string read - the first byte
is the terminator, or a nonzero byte followed by the rest of the string. -/
theorem readCStr_eq (f : List Nat) (p : Nat) :
    readCStr f p =
      match f.get? p with
      | none => none
      | some 0 => some []
      | some (c + 1) => (readCStr f (p + 1)).map (fun t => (c + 1) :: t) := by
  simp only [readCStr]
  by_cases hp : f.length < p
  · have h0 : f.length + 1 - p = 0 := by omega
    have hg : f.get? p = none := List.get?_eq_none.mpr (by omega)
    rw [h0, hg]
    simp [readCStrAux]
  · have h1 : f.length + 1 - p = (f.length - p) + 1 := by omega
    rw [h1, readCStrAux]
    have h2 : f.length - p = f.length + 1 - (p + 1) := by omega
    rw [h2]

theorem readCStr_inv (f : List Nat) (p : Nat) (nm : List Nat)
    (h : readCStr f p = some nm) :
    (nm = [] ∧ f.get? p = some 0) ∨
    (∃ c t, nm = (c + 1) :: t ∧ f.get? p = some (c + 1) ∧ readCStr f (p + 1) = some t) := by
  rw [readCStr_eq] at h
  split at h
  · exact Option.noConfusion h
  · cases h
    rename_i hg
    exact Or.inl ⟨rfl, hg⟩
  · rename_i c hg
    rcases Option.map_eq_some'.mp h with ⟨t, ht, rfl⟩
    exact Or.inr ⟨c, t, rfl, hg, ht⟩

/-- Shared helper: once the C string at `p` is known to be readable, a
bounded prefix compare at `p` against any byte string completes, and it
matches whenever the compared bytes are a prefix of the stored name. -/
theorem readCStr_strncmp (f : List Nat) :
    ∀ (nm : List Nat) (p : Nat), readCStr f p = some nm →
      ∀ P : List Nat, ∃ b, strncmpEqZ f p P = some b ∧
        (listIsPfx P nm = true → b = true) := by
  intro nm
  induction nm with
  | nil =>
    intro p h P
    rcases readCStr_inv f p [] h with ⟨_, hg⟩ | ⟨c, t, hct, _, _⟩
    · cases P with
      | nil => exact ⟨true, rfl, fun _ => rfl⟩
      | cons c P2 =>
        by_cases hc : (0 : Nat) = c
        · exact ⟨true, by simp only [strncmpEqZ, hg]; rw [if_pos hc]; simp,
            fun _ => rfl⟩
        · exact ⟨false, by simp only [strncmpEqZ, hg]; rw [if_neg hc],
            fun hpf => by simp [listIsPfx] at hpf⟩
    · cases hct
  | cons d nm2 ih =>
    intro p h P
    rcases readCStr_inv f p (d :: nm2) h with ⟨hnil, _⟩ | ⟨c, t, hct, hg, hrest⟩
    · cases hnil
    · have hd : d = c + 1 := by injection hct
      have ht : nm2 = t := by injection hct
      subst hd
      subst ht
      cases P with
      | nil => exact ⟨true, rfl, fun _ => rfl⟩
      | cons cp P2 =>
        by_cases hc : c + 1 = cp
        · obtain ⟨b, hb, himp⟩ := ih (p + 1) hrest P2
          refine ⟨b, ?_, ?_⟩
          · simp only [strncmpEqZ, hg]
            rw [if_pos hc, if_neg (by omega)]
            exact hb
          · intro hpf
            have h2 : cp = c + 1 ∧ listIsPfx P2 nm2 = true := by
              simpa [listIsPfx, Bool.and_eq_true] using hpf
            exact himp h2.2
        · refine ⟨false, by simp only [strncmpEqZ, hg]; rw [if_neg hc], fun hpf => ?_⟩
          have h2 : cp = c + 1 ∧ listIsPfx P2 nm2 = true := by
            simpa [listIsPfx, Bool.and_eq_true] using hpf
          exact absurd h2.1.symm hc

/-- Shared helper: if the exact-name linear scan over `dynsym` does not
fault, the prefix scan over the same table completes, and it finds an entry
whenever the exact scan found one. -/
theorem pfxScan_of_linear (is32 : Bool) (f : List Nat) (ds dst : Nat)
    (S P : List Nat) (hp : listIsPfx P S = true) :
    ∀ (k i : Nat), linearScanAux is32 f ds dst S i k ≠ DynRes.fault →
      ∃ o, pfxScanAux is32 f ds dst P i k = some o ∧
        ((∃ j sym, linearScanAux is32 f ds dst S i k = DynRes.found j sym) →
          o ≠ none) := by
  intro k
  induction k with
  | zero =>
    intro i _
    refine ⟨none, by rw [pfxScanAux], ?_⟩
    rintro ⟨j, sym, hj⟩
    rw [linearScanAux] at hj
    exact DynRes.noConfusion hj
  | succ k ih =>
    intro i hnf
    rw [linearScanAux] at hnf
    cases hsym : readSym is32 f (ds + i * symStride is32) with
    | none =>
      simp only [hsym] at hnf
      exact absurd rfl hnf
    | some sym =>
      simp only [hsym] at hnf
      cases hsc : strncmpEqZ f (dst + sym.st_name) S with
      | none =>
        simp only [hsc] at hnf
        exact absurd rfl hnf
      | some b =>
        obtain ⟨b2, hb2, himp⟩ := strncmpEqZ_pfx f P S (dst + sym.st_name) b hsc hp
        cases b with
        | false =>
          simp only [hsc] at hnf
          cases b2 with
          | true =>
            refine ⟨some sym, ?_, fun _ => by simp⟩
            rw [pfxScanAux]
            simp only [hsym, hb2]
          | false =>
            obtain ⟨o, ho, hoimp⟩ := ih (i + 1) hnf
            refine ⟨o, ?_, ?_⟩
            · rw [pfxScanAux]
              simp only [hsym, hb2]
              exact ho
            · rintro ⟨j, sym2, hj⟩
              rw [linearScanAux] at hj
              simp only [hsym, hsc] at hj
              exact hoimp ⟨j, sym2, hj⟩
        | true =>
          have hb2t : b2 = true := himp rfl
          subst hb2t
          refine ⟨some sym, ?_, fun _ => by simp⟩
          rw [pfxScanAux]
          simp only [hsym, hb2]

/-- Shared helper: if the exact-name `.symtab` scan completes, the prefix
scan over the same table completes, and finds an entry whenever the exact
scan did. -/
theorem pfxScan_of_nonDyn (is32 : Bool) (f : List Nat) (st str : Nat)
    (S P : List Nat) (hp : listIsPfx P S = true) :
    ∀ (k i : Nat) (r : Option ElfSymR),
      nonDynScanAux is32 f st str S i k = some r →
      ∃ o, pfxScanAux is32 f st str P i k = some o ∧ (r ≠ none → o ≠ none) := by
  intro k
  induction k with
  | zero =>
    intro i r hr
    rw [nonDynScanAux] at hr
    cases hr
    exact ⟨none, by rw [pfxScanAux], fun hne => absurd rfl hne⟩
  | succ k ih =>
    intro i r hr
    rw [nonDynScanAux] at hr
    cases hsym : readSym is32 f (st + i * symStride is32) with
    | none =>
      simp only [hsym] at hr
      exact Option.noConfusion hr
    | some sym =>
      simp only [hsym] at hr
      cases hcs : readCStr f (str + sym.st_name) with
      | none =>
        simp only [hcs] at hr
        exact Option.noConfusion hr
      | some nm =>
        simp only [hcs] at hr
        obtain ⟨b, hb, himp⟩ := readCStr_strncmp f nm (str + sym.st_name) hcs P
        by_cases hnm : nm = S
        · have hbt : b = true := himp (by rw [hnm]; exact hp)
          subst hbt
          refine ⟨some sym, ?_, fun _ => by simp⟩
          rw [pfxScanAux]
          simp only [hsym, hb]
        · rw [if_neg hnm] at hr
          cases b with
          | true =>
            refine ⟨some sym, ?_, fun _ => by simp⟩
            rw [pfxScanAux]
            simp only [hsym, hb]
          | false =>
            obtain ⟨o, ho, hoimp⟩ := ih (i + 1) r hr
            refine ⟨o, ?_, hoimp⟩
            rw [pfxScanAux]
            simp only [hsym, hb]
            exact ho

/-- Shared helper: a debug-map hit for a name guarantees the prefix walk
over the same map finds an entry for any byte prefix of that name. -/
theorem findPfx_of_lookup (S P : List Nat) (hp : listIsPfx P S = true) :
    ∀ (m : List (List Nat × Nat)) (val : Nat),
      listLookup m S = some val → ∃ e, findFirstWithPfx m P = some e := by
  intro m
  induction m with
  | nil =>
    intro val h
    exact Option.noConfusion h
  | cons e t ih =>
    intro val h
    obtain ⟨a, b⟩ := e
    rw [listLookup] at h
    by_cases ha : a = S
    · exact ⟨(a, b), by rw [findFirstWithPfx, if_pos (by rw [ha]; exact hp)]⟩
    · rw [if_neg ha] at h
      by_cases hpa : listIsPfx P a = true
      · exact ⟨(a, b), by rw [findFirstWithPfx, if_pos hpa]⟩
      · obtain ⟨e2, he2⟩ := ih val h
        exact ⟨e2, by rw [findFirstWithPfx, if_neg hpa]; exact he2⟩

/-- Shared helper: on a hash-less view with both dynamic tables present, the
dynamic lookup is exactly the linear scan over `dynsym`. -/
theorem dynImpl_noHash (is32 : Bool) (f : List Nat) (info : ElfInfo)
    (S : List Nat) (hk : info.elfKind ≠ 0) (hf : f ≠ [])
    (hg : info.gnu_hash = none) (hsv : info.sysv_hash = none)
    (ds dst : Nat) (hds : info.dynsym = some ds) (hdst : info.dynstr = some dst) :
    getDynamicSymbolIndexImpl is32 f info S false =
      linearScanAux is32 f ds dst S 0 info.dynsym_size := by
  rw [getDynamicSymbolIndexImpl, if_neg (by simp [hk, hf])]
  simp [hds, hdst, hg, hsv]

/-- Shared helper: the `.symtab` stage of `GetSymbolOffset` agrees with
`GetNonDynamicSymbolImpl` of the class-selected width, because the impl
itself re-checks the table pointers. -/
theorem symtabStage_noGate (f : List Nat) (info : ElfInfo) (S : List Nat)
    (is32 : Bool) (hk : info.elfKind ≠ 0) (hf : f ≠ [])
    (hcls : (is32 = true ∧ info.elfKind = 1) ∨ (is32 = false ∧ info.elfKind = 2)) :
    symtabStage f info S = getNonDynamicSymbolImpl is32 f info S := by
  rw [symtabStage]
  by_cases hgate : info.symtab ≠ none ∧ info.strtab ≠ none
  · rw [if_pos hgate]
    rcases hcls with ⟨h32, hk1⟩ | ⟨h32, hk2⟩
    · rw [if_pos hk1, h32]
    · rw [if_neg (by omega), if_pos hk2, h32]
  · rw [if_neg hgate]
    rw [getNonDynamicSymbolImpl, if_neg (by simp [hk, hf])]
    cases hst : info.symtab with
    | none => simp only [hst]
    | some st =>
      cases hstr : info.strtab with
      | none => simp only [hst, hstr]
      | some str => exact absurd ⟨by simp [hst], by simp [hstr]⟩ hgate

/-- Shared helper: the `.symtab` half of the prefix implementation completes
whenever the exact `.symtab` lookup does, and finds an entry whenever the
exact lookup found one. -/
theorem implScanSym (is32 : Bool) (f : List Nat) (info : ElfInfo)
    (S P : List Nat) (hp : listIsPfx P S = true)
    (hk : info.elfKind ≠ 0) (hf : f ≠ [])
    (nr : Option ElfSymR)
    (hnon : getNonDynamicSymbolImpl is32 f info S = some nr) :
    ∃ o, (match info.symtab, info.strtab with
          | some stOff, some strOff =>
            pfxScanAux is32 f stOff strOff P 0 info.symtab_size
          | _, _ => some none) = some o ∧ (nr ≠ none → o ≠ none) := by
  rw [getNonDynamicSymbolImpl, if_neg (by simp [hk, hf])] at hnon
  cases hst : info.symtab with
  | none =>
    simp only [hst] at hnon ⊢
    cases hnon
    exact ⟨none, rfl, fun hne => absurd rfl hne⟩
  | some st =>
    cases hstr : info.strtab with
    | none =>
      simp only [hst, hstr] at hnon ⊢
      cases hnon
      exact ⟨none, rfl, fun hne => absurd rfl hne⟩
    | some str =>
      simp only [hst, hstr] at hnon ⊢
      exact pfxScan_of_nonDyn is32 f st str S P hp info.symtab_size 0 nr hnon

/-- Shared helper: a hash-less dynamic lookup that found its symbol forces
the prefix implementation to find an entry in `dynsym`. -/
theorem implScanDynFound (is32 : Bool) (f : List Nat) (info : ElfInfo)
    (S P : List Nat) (j : Nat) (sym : ElfSymR)
    (hp : listIsPfx P S = true)
    (hk : info.elfKind ≠ 0) (hf : f ≠ [])
    (hg : info.gnu_hash = none) (hsv : info.sysv_hash = none)
    (hfd : getDynamicSymbolIndexImpl is32 f info S false = DynRes.found j sym) :
    ∃ s, getFirstSymbolWithPfxImpl is32 f info P = some (some s) := by
  cases hds : info.dynsym with
  | none =>
    rw [getDynamicSymbolIndexImpl, if_neg (by simp [hk, hf])] at hfd
    simp [hds] at hfd
  | some ds =>
    cases hdst : info.dynstr with
    | none =>
      rw [getDynamicSymbolIndexImpl, if_neg (by simp [hk, hf])] at hfd
      simp [hds, hdst] at hfd
    | some dst =>
      rw [dynImpl_noHash is32 f info S hk hf hg hsv ds dst hds hdst] at hfd
      obtain ⟨o1, ho1, himp1⟩ := pfxScan_of_linear is32 f ds dst S P hp
        info.dynsym_size 0 (by rw [hfd]; simp)
      have ho1n : o1 ≠ none := himp1 ⟨j, sym, hfd⟩
      cases o1 with
      | none => exact absurd rfl ho1n
      | some s =>
        refine ⟨s, ?_⟩
        rw [getFirstSymbolWithPfxImpl]
        simp only [hds, hdst, ho1]

/-- Shared helper: when the hash-less dynamic lookup misses and the exact
`.symtab` lookup completes, the prefix implementation completes, and finds
an entry whenever the exact `.symtab` lookup did. -/
theorem implScanDynMiss (is32 : Bool) (f : List Nat) (info : ElfInfo)
    (S P : List Nat) (hp : listIsPfx P S = true)
    (hk : info.elfKind ≠ 0) (hf : f ≠ [])
    (hg : info.gnu_hash = none) (hsv : info.sysv_hash = none)
    (hmiss : getDynamicSymbolIndexImpl is32 f info S false = DynRes.miss)
    (nr : Option ElfSymR)
    (hnon : getNonDynamicSymbolImpl is32 f info S = some nr) :
    ∃ o, getFirstSymbolWithPfxImpl is32 f info P = some o ∧
      (nr ≠ none → o ≠ none) := by
  rw [getFirstSymbolWithPfxImpl]
  cases hds : info.dynsym with
  | none =>
    obtain ⟨o2, ho2, himp2⟩ := implScanSym is32 f info S P hp hk hf nr hnon
    refine ⟨o2, ?_, himp2⟩
    simp only [hds]
    exact ho2
  | some ds =>
    cases hdst : info.dynstr with
    | none =>
      obtain ⟨o2, ho2, himp2⟩ := implScanSym is32 f info S P hp hk hf nr hnon
      refine ⟨o2, ?_, himp2⟩
      simp only [hds, hdst]
      exact ho2
    | some dst =>
      rw [dynImpl_noHash is32 f info S hk hf hg hsv ds dst hds hdst] at hmiss
      obtain ⟨o1, ho1, himp1⟩ := pfxScan_of_linear is32 f ds dst S P hp
        info.dynsym_size 0 (by rw [hmiss]; simp)
      cases o1 with
      | some s =>
        refine ⟨some s, ?_, fun _ => by simp⟩
        simp only [hds, hdst, ho1]
      | none =>
        obtain ⟨o2, ho2, himp2⟩ := implScanSym is32 f info S P hp hk hf nr hnon
        refine ⟨o2, ?_, himp2⟩
        simp only [hds, hdst, ho1]
        exact ho2

set_option maxHeartbeats 1000000
set_option maxRecDepth 100000

/-- C8: the claimed monotonicity fails three ways on concrete views: on `vA`
(no hash tables) the exact lookup of "fb" yields 5 ≠ 0, yet the empty prefix
(a prefix of every name) yields 0, and the prefix "f" also yields 0 because
the scan stops at the earlier symbol "fa" whose computed offset is 0; on `vB`
the exact lookup succeeds through the GNU hash at an index beyond the
recorded `dynsym_size`, so the prefix scan never reaches it and yields 0. -/
theorem pfxQuery_counterexample :
    getSymbolOffset vA (strBytes "fb") = some 5 ∧ (5 : Nat) ≠ 0 ∧
    listIsPfx [] (strBytes "fb") = true ∧
    getFirstSymbolOffsetWithPfx vA [] = some 0 ∧
    listIsPfx (strBytes "f") (strBytes "fb") = true ∧
    getFirstSymbolOffsetWithPfx vA (strBytes "f") = some 0 ∧
    getSymbolOffset vB (strBytes "fb") = some 7 ∧
    getFirstSymbolOffsetWithPfx vB (strBytes "f") = some 0 := by
  decide

/-- C8 (amended): on an attached view whose descriptor has no hash tables,
if the exact lookup of a non-empty name returns from a found-site, then for
every non-empty byte prefix of that name the prefix query also returns from
a found-site (though the returned offset may differ, and may even be 0). -/
theorem pfxQuery_amended (v : ViewState) (info : ElfInfo) (S P : List Nat)
    (r : Nat)
    (hinfo : v.mElfInfo = some info)
    (hval : isValid v = true)
    (hg : info.gnu_hash = none) (hsv : info.sysv_hash = none)
    (hfound : getSymbolOffsetR v S = some (some r))
    (hP : P ≠ []) (hpfx : listIsPfx P S = true) :
    ∃ r2, getFirstSymbolOffsetWithPfxR v P = some (some r2) := by
  have hkf : v.mMemory.isEmpty = false ∧ info.elfKind ≠ 0 := by
    rw [isValid] at hval
    simp only [hinfo] at hval
    simpa using hval
  have hf : v.mMemory ≠ [] := by
    intro he
    rw [he] at hkf
    simp at hkf
  have hk := hkf.2
  have hS : S ≠ [] := by
    intro he
    rw [getSymbolOffsetR, if_pos he] at hfound
    simp at hfound
  rw [getSymbolOffsetR, if_neg hS] at hfound
  simp only [hinfo] at hfound
  rw [getFirstSymbolOffsetWithPfxR, if_neg (by simp [hP, hval])]
  simp only [hinfo]
  have hdisp : (info.elfKind ≠ 1 ∧ info.elfKind ≠ 2) ∨
      ∃ is32 : Bool,
        dynStage v.mMemory info S =
          getDynamicSymbolIndexImpl is32 v.mMemory info S false ∧
        symtabStage v.mMemory info S = getNonDynamicSymbolImpl is32 v.mMemory info S ∧
        (if info.elfKind = 1 then getFirstSymbolWithPfxImpl true v.mMemory info P
         else if info.elfKind = 2 then getFirstSymbolWithPfxImpl false v.mMemory info P
         else some none) = getFirstSymbolWithPfxImpl is32 v.mMemory info P := by
    by_cases hk1 : info.elfKind = 1
    · refine Or.inr ⟨true, ?_, ?_, ?_⟩
      · rw [dynStage, if_pos hk1]
      · exact symtabStage_noGate v.mMemory info S true hk hf (Or.inl ⟨rfl, hk1⟩)
      · rw [if_pos hk1]
    · by_cases hk2 : info.elfKind = 2
      · refine Or.inr ⟨false, ?_, ?_, ?_⟩
        · rw [dynStage, if_neg hk1, if_pos hk2]
        · exact symtabStage_noGate v.mMemory info S false hk hf (Or.inr ⟨rfl, hk2⟩)
        · rw [if_neg hk1, if_pos hk2]
      · exact Or.inl ⟨hk1, hk2⟩
  rcases hdisp with ⟨hk1, hk2⟩ | ⟨is32, hdd, hds2, hdp⟩
  · have hdm : dynStage v.mMemory info S = DynRes.miss := by
      rw [dynStage, if_neg hk1, if_neg hk2]
    have hsm : symtabStage v.mMemory info S = some none := by
      rw [symtabStage]
      by_cases hgate : info.symtab ≠ none ∧ info.strtab ≠ none
      · rw [if_pos hgate, if_neg hk1, if_neg hk2]
      · rw [if_neg hgate]
    simp only [hdm, hsm] at hfound
    cases hlk : listLookup info.compressedDebugSymbols S with
    | none =>
      simp only [hlk] at hfound
      exact Option.noConfusion (Option.some.inj hfound)
    | some val =>
      obtain ⟨e, he⟩ := findPfx_of_lookup S P hpfx info.compressedDebugSymbols val hlk
      refine ⟨sub64 e.2 info.loadBias, ?_⟩
      simp [hk1, hk2, he]
  · rw [hdd, hds2] at hfound
    rw [hdp]
    cases hdr : getDynamicSymbolIndexImpl is32 v.mMemory info S false with
    | fault =>
      simp only [hdr] at hfound
      exact Option.noConfusion hfound
    | found j sym =>
      obtain ⟨s, hs⟩ := implScanDynFound is32 v.mMemory info S P j sym hpfx
        hk hf hg hsv hdr
      exact ⟨sub64 s.st_value info.loadBias, by simp only [hs]⟩
    | miss =>
      simp only [hdr] at hfound
      cases hnd : getNonDynamicSymbolImpl is32 v.mMemory info S with
      | none =>
        simp only [hnd] at hfound
        exact Option.noConfusion hfound
      | some nr =>
        obtain ⟨o, ho, himp⟩ := implScanDynMiss is32 v.mMemory info S P hpfx
          hk hf hg hsv hdr nr hnd
        cases nr with
        | some s =>
          have hon : o ≠ none := himp (by simp)
          cases o with
          | none => exact absurd rfl hon
          | some s2 => exact ⟨sub64 s2.st_value info.loadBias, by simp only [ho]⟩
        | none =>
          simp only [hnd] at hfound
          cases hlk : listLookup info.compressedDebugSymbols S with
          | none =>
            simp only [hlk] at hfound
            exact Option.noConfusion (Option.some.inj hfound)
          | some val =>
            cases o with
            | some s2 => exact ⟨sub64 s2.st_value info.loadBias, by simp only [ho]⟩
            | none =>
              obtain ⟨e, he⟩ := findPfx_of_lookup S P hpfx
                info.compressedDebugSymbols val hlk
              exact ⟨sub64 e.2 info.loadBias, by simp only [ho, he]⟩

/-- C8 (amended) at a concrete input: on `vA`, "f" is a non-empty prefix of
the resolvable name "fb", and the prefix query returns from a found-site. -/
theorem pfxQuery_amended_witness :
    listIsPfx (strBytes "f") (strBytes "fb") = true ∧
    ∃ r2, getFirstSymbolOffsetWithPfxR vA (strBytes "f") = some (some r2) :=
  ⟨by decide,
   pfxQuery_amended vA infoA (strBytes "fb") (strBytes "f") 5 rfl (by decide)
     rfl rfl (by decide) (by decide) (by decide)⟩

end ElfView
